import Mathlib

/-!
# Verification of the schema registry / resolver / validator engine

Shallow embedding of `src/src/SchemaManager.ts` (class `SchemaManager`) and
`src/Validator.ts` (class `Validator`, the version with `whitelistedKeys`
and the `_resolved` check).  The JavaScript heap of shared, mutable schema
objects is modelled as an arena: a list of `SchemaObject` nodes addressed by
index, with object identity = arena index and in-place mutation = updating
the node at an index.  The registry maps names to arena indices.

`shortid.generate()` is modelled as an oracle stream `genStream : Nat → String`
together with a cursor `gen`; each call returns the next stream element.
-/

namespace Schema

/-- Runtime JavaScript values, as far as the validator inspects them. -/
inductive JsValue where
  | undefined
  | null
  | bool (b : Bool)
  | num (n : Int)
  | str (s : String)
  | obj (fields : List (String × JsValue))
  | arr (elems : List JsValue)

/-- `typeof v === 'undefined'`. -/
def JsValue.isUndefinedZZ : JsValue → Bool
  | .undefined => true
  | _ => false

/-- `Array.isArray(v)`. -/
def JsValue.isArr : JsValue → Bool
  | .arr _ => true
  | _ => false

/-- `typeof v` in JavaScript. -/
def typeofStr : JsValue → String
  | .undefined => "undefined"
  | .null => "object"
  | .bool _ => "boolean"
  | .num _ => "number"
  | .str _ => "string"
  | .obj _ => "object"
  | .arr _ => "object"

/-- JavaScript truthiness of a value. -/
def truthy : JsValue → Bool
  | .undefined => false
  | .null => false
  | .bool b => b
  | .num n => n != 0
  | .str s => s != ""
  | .obj _ => true
  | .arr _ => true

/-- First-binding association-list lookup (JS object property read). -/
def lookupA {α : Type} : List (String × α) → String → Option α
  | [], _ => none
  | (k, v) :: rest, key => if k = key then some v else lookupA rest key

/-- JS object property assignment `o[k] = v`: updates the existing binding in
place (keeping its position, as JS keeps insertion order) or appends. -/
def assocSet {α : Type} : List (String × α) → String → α → List (String × α)
  | [], key, v => [(key, v)]
  | (k, w) :: rest, key, v =>
    if k = key then (k, v) :: rest else (k, w) :: assocSet rest key v

/-- `Object.keys(v)` for a value that is not `undefined`/`null`:
object keys in insertion order, array/string index keys, `[]` for scalars. -/
def jsKeys : JsValue → List String
  | .obj fields => fields.map Prod.fst
  | .arr elems => (List.range elems.length).map toString
  | .str s => (List.range s.length).map toString
  | _ => []

/-- `v[k]` property read, `undefined` when absent; never called on
`undefined`/`null` receivers along the modelled paths. -/
def getProp : JsValue → String → JsValue
  | .obj fields, k => (lookupA fields k).getD .undefined
  | .arr elems, k =>
    match k.toNat? with
    | some i => elems.getD i .undefined
    | none => .undefined
  | .str s, k =>
    match k.toNat? with
    | some i => if i < s.length then .str (String.singleton (s.toList.getD i ' ')) else .undefined
    | none => .undefined
  | _, _ => .undefined

/-- `v.hasOwnProperty(k)`. -/
def hasProp : JsValue → String → Bool
  | .obj fields, k => (lookupA fields k).isSome
  | .arr elems, k =>
    match k.toNat? with
    | some i => i < elems.length
    | none => false
  | .str s, k =>
    match k.toNat? with
    | some i => i < s.length
    | none => false
  | _, _ => false

/-- A `SchemaType` value (`interfaces.ts`): `Function | ISchemaObject | string`.
A function (primitive constructor such as `Number`) is kept as its `.name`
string; an `ISchemaObject` is an arena index (shared reference); a string is
either a custom-type name or a dangling by-name reference. -/
inductive SType where
  | func (fname : String)
  | strRef (s : String)
  | node (i : Nat)
deriving DecidableEq

/-- `schema.type` together with the `_singleType` flag: either a bare
`SchemaType` (`_singleType` true) or a field-name → `SchemaType` map. -/
inductive SchemaTypeVal where
  | single (t : SType)
  | fieldMap (l : List (String × SType))
deriving DecidableEq

/-- An `ISchemaObject`.  `resolvedFlag` is the optional `_resolved` property
(absent means resolved); `metaData` is the raw JS metadata object. -/
structure SchemaObject where
  name : Option String := none
  resolvedFlag : Option Bool := none
  stype : SchemaTypeVal := .fieldMap []
  isArray : Bool := false
  uniqueKey : Option String := none
  metaData : JsValue := .undefined

/-- `SchemaManager.isSchemaResolved`: `schema._resolved !== false`. -/
def isResolvedObj (s : SchemaObject) : Bool := s.resolvedFlag != some false

/-- `${schema.name}` interpolation (undefined prints as "undefined"). -/
def nameStr (s : SchemaObject) : String := s.name.getD "undefined"

/-- The distinct failure outcomes of the engine, one constructor per throw
site (plus `stackOverflow` for the JS call-stack limit that unbounded
recursion would hit, and `catchNameTypeError` for the TypeError raised by
`validateModel`'s catch block reading `schema.name` of an unassigned
variable). -/
inductive VError where
  | unknownSchema (name : String)
  | duplicateSchemaName (name : String)
  | typeExists (tname : String)
  | unresolvableSchemas (names : List String)
  | catchNameTypeError
  | unresolvedSchema (name : String)
  | arrayShapeMismatch (name : String) (dataWasArray : Bool)
  | emptyObject (name : String)
  | unknownField (name key : String)
  | requiredKey (name key : String)
  | requiredKeyUndefined (name key : String)
  | incorrectType (name key ty : String)
  | incorrectTypeSingle (name ty : String)
  | keyUnresolved (name key : String)
  | keyUnresolvedSingle (name : String)
  | keysOfNonObject
  | stackOverflow
  | custom (msg : String)
deriving DecidableEq

/-- A registered custom-type validator (`customTypeValidator`):
receives the value and the associated metadata. -/
def CTV : Type := JsValue → JsValue → Except VError Bool

/-- A metadata validator (`metaDataValidator`): receives the metadata value,
the field key (none for single-type schemas), the data value, the type's
display name, and the full metadata block. -/
def MDV : Type := JsValue → Option String → JsValue → String → JsValue → Except VError Bool

/-- The combined mutable state of one `SchemaManager` and its `Validator`. -/
structure SMState where
  arena : List SchemaObject
  registry : List (String × Nat)
  customTypes : List String
  typeValidators : List (String × CTV)
  metaValidators : List (String × MDV)
  whitelistedKeys : List String
  gen : Nat
  genStream : Nat → String

/-- Read an arena node (callers stay in range along modelled paths). -/
def getNode (st : SMState) (i : Nat) : SchemaObject :=
  st.arena.getD i {}

/-- Mutate the arena node at `i` in place. -/
def setNode (st : SMState) (i : Nat) (f : SchemaObject → SchemaObject) : SMState :=
  { st with arena := st.arena.set i (f (getNode st i)) }

/-- `SchemaManager.getSchema`, as the index of the registered object. -/
def getSchemaE (st : SMState) (name : String) : Except VError Nat :=
  match lookupA st.registry name with
  | some i => .ok i
  | none => .error (.unknownSchema name)

/-- `SchemaManager.hasSchema`. -/
def hasSchemaB (st : SMState) (name : String) : Bool :=
  (lookupA st.registry name).isSome

/-- `registry.hasOwnProperty(schema.name)` where `schema.name` may be absent. -/
def nameRegistered (st : SMState) (name : Option String) : Bool :=
  match name with
  | some n => (lookupA st.registry n).isSome
  | none => false

/-- JS truthiness of an optional string (`if (name)`). -/
def optTruthy : Option String → Bool
  | some s => s != ""
  | none => false

/-- The dummy custom-type validator installed when none is supplied. -/
def dummyCTV : CTV := fun _ _ => .ok true

/-- The `typeof value === p.toLowerCase()` validator registered for each
primitive in the `SchemaManager` constructor. -/
def primCTV (lower : String) : CTV := fun v _ => .ok (typeofStr v == lower)

/-- `SchemaManager.registerType` followed by `Validator.registerType`:
pushes the name onto `customTypes` first, then installs the validator
(throwing if one is already installed — the push survives the throw). -/
def registerTypeOp (st : SMState) (tname : String) (tv : Option CTV) :
    Except VError Unit × SMState :=
  let st1 := { st with customTypes := st.customTypes ++ [tname] }
  if (lookupA st1.typeValidators tname).isSome then
    (.error (.typeExists tname), st1)
  else
    (.ok (), { st1 with typeValidators := st1.typeValidators ++ [(tname, tv.getD dummyCTV)] })

/-- A freshly constructed manager/validator pair before the constructor's
`registerType` calls run. -/
def emptyState (stream : Nat → String) : SMState :=
  { arena := [], registry := [], customTypes := [], typeValidators := [],
    metaValidators := [], whitelistedKeys := [], gen := 0, genStream := stream }

/-- The `SchemaManager` constructor: registers `Any` with the dummy
validator and each primitive (`String`, `Boolean`, `Number`, in
`Validator.PRIMITIVES` order) with its `typeof` check. -/
def initState (stream : Nat → String) : SMState :=
  let st1 := (registerTypeOp (emptyState stream) "Any" none).2
  let st2 := (registerTypeOp st1 "String" (some (primCTV "string"))).2
  let st3 := (registerTypeOp st2 "Boolean" (some (primCTV "boolean"))).2
  (registerTypeOp st3 "Number" (some (primCTV "number"))).2

/-- `SchemaManager.generateSchemaName` (with the one-step `nameHint`
recursion inlined: the hint is retried as the name with a null hint). -/
def generateSchemaName (st : SMState) (name hint : Option String) (tol : Bool) :
    Except VError String × SMState :=
  if optTruthy name then
    let n := name.getD ""
    if (lookupA st.registry n).isSome then
      if tol then
        ((.ok (n ++ "_" ++ st.genStream st.gen)), { st with gen := st.gen + 1 })
      else (.error (.duplicateSchemaName n), st)
    else (.ok n, st)
  else if optTruthy hint then
    let n := hint.getD ""
    if (lookupA st.registry n).isSome then
      if tol then
        ((.ok (n ++ "_" ++ st.genStream st.gen)), { st with gen := st.gen + 1 })
      else (.error (.duplicateSchemaName n), st)
    else (.ok n, st)
  else
    ((.ok (st.genStream st.gen)), { st with gen := st.gen + 1 })

/-- The `SchemaType` entries of `schema.type`, in declaration order (the
bare type for a single-type schema, the map's values otherwise). -/
def typeEntries (s : SchemaObject) : List SType :=
  match s.stype with
  | .single t => [t]
  | .fieldMap l => l.map Prod.snd

/-- The body of `_registerSchema`'s child walk: for each entry of the type
(in declaration order) recursively register nested objects in
duplicate-tolerant mode, and flag the parent `i` unresolved on any string
that is not a registered custom type.  A child throw aborts the walk, as a
JS exception aborts `forEach`. -/
def regFields (recReg : SMState → Nat → Except VError Nat × SMState)
    (i : Nat) : SMState → List SType → Except VError Unit × SMState
  | st, [] => (.ok (), st)
  | st, t :: rest =>
    match t with
    | .node j =>
      match recReg st j with
      | (.error e, st') => (.error e, st')
      | (.ok _, st') => regFields recReg i st' rest
    | .strRef c =>
      if st.customTypes.contains c then regFields recReg i st rest
      else regFields recReg i (setNode st i (fun o => { o with resolvedFlag := some false })) rest
    | .func _ => regFields recReg i st rest

/-- `SchemaManager._registerSchema`, fuelled (the registry grows on every
non-early call, so `arena.length + 1` fuel always suffices in practice). -/
def registerGo : Nat → SMState → Nat → Option String → Bool → Except VError Nat × SMState
  | 0, st, _, _, _ => (.error .stackOverflow, st)
  | fuel + 1, st, i, hint, tol =>
    let s := getNode st i
    if tol && nameRegistered st s.name then
      -- quietly return the entry already registered under that name
      (match s.name with
       | some n =>
         match lookupA st.registry n with
         | some j => (.ok j, st)
         | none => (.ok i, st)
       | none => (.ok i, st))
    else
      match generateSchemaName st s.name hint tol with
      | (.error e, st') => (.error e, st')
      | (.ok nm, st') =>
        let st2 := setNode st' i (fun o => { o with name := some nm })
        let st3 := { st2 with registry := assocSet st2.registry nm i }
        match regFields (fun st' j => registerGo fuel st' j none true) i st3 (typeEntries s) with
        | (.error e, st4) => (.error e, st4)
        | (.ok _, st4) => (.ok i, st4)

/-- `SchemaManager.registerSchema` (public): duplicate check, then
`_registerSchema`. -/
def registerSchema (st : SMState) (i : Nat) (hint : Option String) (tol : Bool) :
    Except VError Nat × SMState :=
  let s := getNode st i
  if nameRegistered st s.name && !tol then
    (.error (.duplicateSchemaName (nameStr s)), st)
  else registerGo (st.arena.length + 1) st i hint tol

/-- One step of `resolveSchema`'s `forEach` over a map schema's fields:
a dangling string naming a registered schema is rewritten to a direct
link, a registered custom-type string is left alone, any other string
clears the running resolved flag; objects and functions pass through. -/
def resolveStep (reg : List (String × Nat)) (cts : List String)
    (acc : List (String × SType) × Bool) (kv : String × SType) :
    List (String × SType) × Bool :=
  match kv.2 with
  | .strRef v =>
    match lookupA reg v with
    | some j => (acc.1 ++ [(kv.1, SType.node j)], acc.2)
    | none =>
      if cts.contains v then (acc.1 ++ [kv], acc.2)
      else (acc.1 ++ [kv], false)
  | _ => (acc.1 ++ [kv], acc.2)

/-- The effect of `resolveSchema`'s body on the one schema object it
mutates, given the registry and custom-type list it reads. -/
def resolveNode (reg : List (String × Nat)) (cts : List String) (s : SchemaObject) :
    Bool × SchemaObject :=
  match s.stype with
  | .single t =>
    match t with
    | .strRef v =>
      match lookupA reg v with
      | some j => (true, { s with stype := .single (.node j), resolvedFlag := some true })
      | none =>
        if cts.contains v then (true, { s with resolvedFlag := some true })
        else (false, { s with resolvedFlag := some false })
    | .node _ => (true, { s with resolvedFlag := some true })
    | .func _ => (true, { s with resolvedFlag := some true })
  | .fieldMap l =>
    let res := l.foldl (resolveStep reg cts) ([], true)
    (res.2, { s with stype := .fieldMap res.1, resolvedFlag := some res.2 })

/-- `SchemaManager.resolveSchema`: no-op success when already resolved;
otherwise rewrite each dangling string that now names a registered schema
into a direct link, accept registered custom types, and set the final
`_resolved` state — mutating the schema object in place. -/
def resolveSchemaFn (st : SMState) (i : Nat) : Bool × SMState :=
  let s := getNode st i
  if isResolvedObj s then (true, st)
  else
    let r := resolveNode st.registry st.customTypes s
    (r.1, setNode st i (fun _ => r.2))

/-- The `forEach` body of `resolveAll`: walk the registry key snapshot,
resolving each still-unresolved schema and pushing the names that fail. -/
def resolveAllGo : SMState → List String → List String → SMState × List String
  | st, [], acc => (st, acc)
  | st, n :: rest, acc =>
    match lookupA st.registry n with
    | none => resolveAllGo st rest acc
    | some i =>
      if isResolvedObj (getNode st i) then resolveAllGo st rest acc
      else
        let r := resolveSchemaFn st i
        resolveAllGo r.2 rest (if r.1 then acc else acc ++ [n])

/-- `SchemaManager.resolveAll`: collects every name that stays unresolved
and throws one combined error for all of them, else returns true. -/
def resolveAll (st : SMState) : Except VError Bool × SMState :=
  let r := resolveAllGo st (st.registry.map Prod.fst) []
  if r.2.isEmpty then (.ok true, r.1)
  else (.error (.unresolvableSchemas r.2), r.1)

/-- The display name the snapshot code reads off a field:
`copy.type[key].name`.  A function yields its name, a nested schema its
`name` property, and a string yields JS `undefined` (strings have no
`name`), modelled as `none`. -/
def typeDisplayName (st : SMState) : SType → Option String
  | .func f => some f
  | .node j => (getNode st j).name
  | .strRef _ => none

/-- The part of `schemaToObject`'s wire snapshot the specification talks
about: how `copy.type` ends up.  A single-type schema with a string type is
left untouched (`typeof copy.type === 'string'` guard); a field map has
every entry replaced by its `.name`; a single-type schema holding a
function or nested object falls into the same `Object.keys` walk over the
deep clone itself, which projects `.name` over the clone's own properties —
no claim depends on that degenerate shape, recorded as `singleOther`. -/
inductive Snapshot where
  | singleStr (s : String)
  | mapFields (l : List (String × Option String))
  | singleOther
deriving DecidableEq

/-- `SchemaManager.schemaToObject`. -/
def schemaToObject (st : SMState) (name : String) : Except VError Snapshot :=
  match lookupA st.registry name with
  | none => .error (.unknownSchema name)
  | some i =>
    match (getNode st i).stype with
    | .single (.strRef s) => .ok (.singleStr s)
    | .single _ => .ok .singleOther
    | .fieldMap l => .ok (.mapFields (l.map (fun kv => (kv.1, typeDisplayName st kv.2))))

/-! ## The validation engine (`Validator`, `src/Validator.ts`) -/

/-- `Validator.isKeyRequired`:
`schema.metaData && schema.metaData.hasOwnProperty(key) && schema.metaData[key].required`. -/
def isKeyRequired (s : SchemaObject) (key : String) : Bool :=
  truthy s.metaData && hasProp s.metaData key
    && truthy (getProp (getProp s.metaData key) "required")

/-- The field read `schema.type[key]`. -/
def fieldLookup (s : SchemaObject) (key : String) : Option SType :=
  match s.stype with
  | .fieldMap l => lookupA l key
  | .single _ => none

/-- `Validator.getSchemaKeyType` applied to the field's `SchemaType`: a
string must name a registered type validator (else the key is unresolved);
a function or nested schema yields its `.name`. -/
def keyTypeName (st : SMState) (s : SchemaObject) (key : String) :
    SType → Except VError String
  | .strRef t =>
    if (lookupA st.typeValidators t).isSome then .ok t
    else .error (.keyUnresolved (nameStr s) key)
  | .func f => .ok f
  | .node j => .ok (nameStr (getNode st j))

/-- `Validator.getSchemaKeyTypeSingle`.  (A field-map type would take the
`.name` of a plain object, i.e. JS `undefined`; that branch is unreachable
because single dispatch only happens on `_singleType` schemas.) -/
def singleTypeName (st : SMState) (s : SchemaObject) : Except VError String :=
  match s.stype with
  | .single (.strRef t) =>
    if (lookupA st.typeValidators t).isSome then .ok t
    else .error (.keyUnresolvedSingle (nameStr s))
  | .single (.func f) => .ok f
  | .single (.node j) => .ok (nameStr (getNode st j))
  | .fieldMap _ => .ok "undefined"

/-- The `flatMap` walk over a metadata block's keys inside
`validateMetaData`: unregistered metadata keys are silently accepted,
registered validators run and their booleans are conjoined by `.every`. -/
def runMetaKeys (st : SMState) (keyData : JsValue) (key : Option String)
    (value : JsValue) (ty : String) : List String → Except VError Bool
  | [] => .ok true
  | mk :: rest => do
    let b ← match lookupA st.metaValidators mk with
      | none => pure true
      | some mv => mv (getProp keyData mk) key value ty keyData
    let c ← runMetaKeys st keyData key value ty rest
    pure (b && c)

/-- `Validator.validateMetaData`. -/
def validateMetaData (st : SMState) (s : SchemaObject) (key : Option String)
    (value : JsValue) (ty : String) : Except VError Bool :=
  if !truthy s.metaData then .ok true
  else
    match key with
    | none =>
      let keyData := s.metaData
      let keyArray := jsKeys keyData
      if keyArray.isEmpty then .ok true
      else runMetaKeys st keyData key value ty keyArray
    | some k =>
      let keyData := getProp s.metaData k
      if !truthy keyData then .ok true
      else
        let keyArray := jsKeys keyData
        if keyArray.isEmpty then .ok true
        else runMetaKeys st keyData key value ty keyArray

/-- The type of the recursive re-entry `this.validateModel` that the
per-value check uses for nested schemas. -/
def RecM : Type := String → JsValue → Bool → Except VError Bool

/-- `Validator.validateValue`.  `key = none` is the single-type path
(`key === null`). -/
def validateValueF (st : SMState) (recM : RecM) (s : SchemaObject)
    (key : Option String) (value : JsValue) (full : Bool) : Except VError Bool :=
  match key with
  | none =>
    match singleTypeName st s with
    | .error e => .error e
    | .ok ty =>
      match lookupA st.typeValidators ty with
      | some tv => do
        let b ← tv value s.metaData
        if b then validateMetaData st s none value ty
        else .error (.incorrectTypeSingle (nameStr s) ty)
      | none => recM ty value full
  | some k =>
    if st.whitelistedKeys.contains k then .ok true
    else
      match fieldLookup s k with
      | none => .error (.unknownField (nameStr s) k)
      | some t =>
        if value.isUndefinedZZ then
          if full && isKeyRequired s k then
            .error (.requiredKeyUndefined (nameStr s) k)
          else .ok true
        else
          match keyTypeName st s k t with
          | .error e => .error e
          | .ok ty =>
            match lookupA st.typeValidators ty with
            | some tv => do
              let meta :=
                if truthy s.metaData && truthy (getProp s.metaData k) then getProp s.metaData k
                else JsValue.null
              let b ← tv value meta
              if b then validateMetaData st s (some k) value ty
              else .error (.incorrectType (nameStr s) k ty)
            | none => do
              let _ ← recM ty value full
              validateMetaData st s (some k) value ty

/-- The `flatMap` walk over iterated keys inside `validateItem`: a key that
is required by metadata but absent from the data fails in full mode;
otherwise each key's value is checked and the booleans are conjoined. -/
def validateFieldsF (st : SMState) (recM : RecM) (s : SchemaObject)
    (data : JsValue) (full : Bool) : List String → Except VError Bool
  | [] => .ok true
  | key :: rest => do
    let b ←
      if full && !hasProp data key && isKeyRequired s key then
        Except.error (.requiredKey (nameStr s) key)
      else validateValueF st recM s (some key) (getProp data key) full
    let c ← validateFieldsF st recM s data full rest
    pure (b && c)

/-- `Object.keys(v)` including the TypeError on `undefined`/`null`. -/
def objectKeys : JsValue → Except VError (List String)
  | .undefined => .error .keysOfNonObject
  | .null => .error .keysOfNonObject
  | v => .ok (jsKeys v)

/-- Whether a data key is declared in the schema's field map. -/
def hasField (l : List (String × SType)) (k : String) : Bool :=
  (lookupA l k).isSome

/-- `Validator.validateItem`. -/
def validateItemF (st : SMState) (recM : RecM) (s : SchemaObject)
    (data : JsValue) (full : Bool) : Except VError Bool :=
  match s.stype with
  | .single _ =>
    if full && data.isUndefinedZZ then .error (.emptyObject (nameStr s))
    else validateValueF st recM s none data full
  | .fieldMap l =>
    match (if full then Except.ok (l.map Prod.fst) else objectKeys data) with
    | .error e => .error e
    | .ok keys =>
      if full then
        -- the undefined data value is replaced by {} before the scan
        let md := if data.isUndefinedZZ then JsValue.obj [] else data
        match objectKeys md with
        | .error e => .error e
        | .ok dataKeys =>
          match dataKeys.find? (fun k => !hasField l k && !st.whitelistedKeys.contains k) with
          | some k =>
            -- `if (k)` — an empty-string key is falsy and slips through
            if k ≠ "" then .error (.unknownField (nameStr s) k)
            else validateFieldsF st recM s md full keys
          | none => validateFieldsF st recM s md full keys
      else validateFieldsF st recM s data full keys

/-- The `flatMap` walk over array elements inside `validateArray`. -/
def validateItemsF (st : SMState) (recM : RecM) (s : SchemaObject)
    (full : Bool) : List JsValue → Except VError Bool
  | [] => .ok true
  | x :: xs => do
    let b ← validateItemF st recM s x full
    let c ← validateItemsF st recM s full xs
    pure (b && c)

/-- `Validator.validateModel`, fuelled by recursion depth.  An unknown
schema name lands in the catch block, whose message interpolation
`${schema.name}` reads the never-assigned `schema` variable and therefore
raises a TypeError instead of re-throwing the `UnknownSchema` error. -/
def validateModel (st : SMState) : Nat → String → JsValue → Bool → Except VError Bool
  | 0, _, _, _ => .error .stackOverflow
  | fuel + 1, name, data, full =>
    match lookupA st.registry name with
    | none => .error .catchNameTypeError
    | some i =>
      let s := getNode st i
      if !isResolvedObj s then .error (.unresolvedSchema name)
      else
        match s.isArray, data with
        | true, .arr elems => validateItemsF st (validateModel st fuel) s full elems
        | true, _ => .error (.arrayShapeMismatch name false)
        | false, .arr _ => .error (.arrayShapeMismatch name true)
        | false, _ => validateItemF st (validateModel st fuel) s data full

/-! ## The state-changing operations, as one alphabet (for frame facts) -/

/-- Every mutating public operation of the manager/validator pair.
`getSchema`, `hasSchema`, `schemaToObject`, `schemasToObject` and
`validateModel` read the state without writing it and are modelled above as
pure functions of `SMState`. -/
inductive Op where
  | reg (i : Nat) (hint : Option String) (tol : Bool)
  | regType (tname : String) (tv : Option CTV)
  | resolveOne (i : Nat)
  | resolveEvery

/-- The state after running one operation (discarding its result; a thrown
error leaves the mutations already performed in place, as in JS). -/
def applyOp (st : SMState) : Op → SMState
  | .reg i hint tol => (registerSchema st i hint tol).2
  | .regType t v => (registerTypeOp st t v).2
  | .resolveOne i => (resolveSchemaFn st i).2
  | .resolveEvery => (resolveAll st).2

/-! ## Generic facts about the embedding -/

deriving instance DecidableEq for Except

theorem ebind_ok {ε α β : Type} (a : α) (f : α → Except ε β) :
    (Except.ok a >>= f) = f a := rfl

theorem ebind_error {ε α β : Type} (e : ε) (f : α → Except ε β) :
    ((Except.error e : Except ε α) >>= f) = .error e := rfl

theorem lookupA_isSome_of_mem_keys {α : Type} {l : List (String × α)} {n : String}
    (h : n ∈ l.map Prod.fst) : (lookupA l n).isSome := by
  induction l with
  | nil => simp at h
  | cons p rest ih =>
    simp only [List.map_cons, List.mem_cons] at h
    by_cases hp : p.1 = n
    · simp [lookupA, hp]
    · rcases h with h | h
      · exact absurd h.symm hp
      · simpa [lookupA, hp] using ih h

theorem mem_keys_of_lookupA_isSome {α : Type} {l : List (String × α)} {n : String}
    (h : (lookupA l n).isSome) : n ∈ l.map Prod.fst := by
  induction l with
  | nil => simp [lookupA] at h
  | cons p rest ih =>
    by_cases hp : p.1 = n
    · simp [hp]
    · simp only [lookupA, hp, if_false] at h
      simp [ih h]

/-! ## Test fixtures used by the concrete theorems below -/

/-- A deterministic stand-in for the `shortid` stream. -/
def testStream : Nat → String := fun k => "gen@" ++ toString k

/-- Schema `a` of the cycle scenario: field `ref` holds the by-name
reference `"b"`. -/
def nodeA : SchemaObject := { name := some "a", stype := .fieldMap [("ref", .strRef "b")] }

/-- Schema `b` of the cycle scenario: field `ref` holds a direct nested
link to schema `a` (arena index 0). -/
def nodeB : SchemaObject := { name := some "b", stype := .fieldMap [("ref", .node 0)] }

/-- A fresh manager holding the two cycle-scenario objects, unregistered. -/
def stCycle : SMState := { initState testStream with arena := [nodeA, nodeB] }

/-- After `registerSchema(A)`. -/
def stCycle1 : SMState := (registerSchema stCycle 0 none false).2

/-- After `registerSchema(B)`. -/
def stCycle2 : SMState := (registerSchema stCycle1 1 none false).2

/-- After `resolveAll()`. -/
def stCycle3 : SMState := (resolveAll stCycle2).2

/-- A resolved map schema `m` with a single declared `Number` field `a`. -/
def nodeM : SchemaObject := { name := some "m", stype := .fieldMap [("a", .func "Number")] }

/-- A schema `u` left explicitly unresolved (dangling reference `nope`). -/
def nodeU : SchemaObject :=
  { name := some "u"
    stype := .fieldMap [("r", .strRef "nope")]
    resolvedFlag := some false }

/-- A manager with `m` (resolved) and `u` (unresolved) registered. -/
def stM : SMState := { initState testStream with
  arena := [nodeM, nodeU]
  registry := [("m", 0), ("u", 1)] }

/-! ## Claim C1 — cycle closure via shared identity -/

/-- Claim C1: registering schema `a` (whose field `ref` holds the by-name
reference `"b"`) and schema `b` (whose field holds a direct nested link to
`a`), then calling `resolveAll`, succeeds and leaves `a`'s `ref` field
holding the exact same arena object (index 1) that `getSchema "b"` returns,
while `b`'s field still holds `a` (index 0): the cycle is closed by shared
identity, not by copying. -/
theorem cycle_closed_by_shared_identity :
    (registerSchema stCycle 0 none false).1 = .ok 0 ∧
    (registerSchema stCycle1 1 none false).1 = .ok 1 ∧
    (resolveAll stCycle2).1 = .ok true ∧
    fieldLookup (getNode stCycle3 0) "ref" = some (.node 1) ∧
    getSchemaE stCycle3 "b" = .ok 1 ∧
    fieldLookup (getNode stCycle3 1) "ref" = some (.node 0) ∧
    isResolvedObj (getNode stCycle3 0) = true := by
  refine ⟨?_, ?_, ?_, ?_, ?_, ?_, ?_⟩ <;> decide

/-! ## Claim C2 — duplicate-tolerant naming policy -/

/-- The object registered first under the name `x`. -/
def nodeX : SchemaObject := { name := some "x", stype := .fieldMap [("f", .func "Number")] }

/-- A different object that also carries the name `x`. -/
def nodeX2 : SchemaObject := { name := some "x", stype := .fieldMap [("g", .func "String")] }

/-- A manager holding both objects, before any registration. -/
def stDup : SMState := { initState testStream with arena := [nodeX, nodeX2] }

/-- The same manager after `registerSchema(nodeX)`. -/
def stDup1 : SMState := (registerSchema stDup 0 none false).2

/-- Claim C2 counterexample: calling `registerSchema` with
`toleratesDuplicate = true` on a *different* object whose name `x` is
already taken does not register that object under a freshly suffixed name.
`_registerSchema`'s early return hands back the arena object already
registered under `x` (index 0, not the argument index 1), the registry is
unchanged, no generated-name counter was consumed, and the colliding object
still carries its old name and is registered under no name at all. -/
theorem tolerated_duplicate_not_renamed :
    (registerSchema stDup1 1 none true).1 = .ok 0 ∧
    (registerSchema stDup1 1 none true).1 ≠ .ok 1 ∧
    (registerSchema stDup1 1 none true).2.registry = [("x", 0)] ∧
    (registerSchema stDup1 1 none true).2.gen = 0 ∧
    (getNode (registerSchema stDup1 1 none true).2 1).name = some "x" ∧
    ((registerSchema stDup1 1 none true).2.registry.map Prod.snd).contains 1 = false := by
  refine ⟨?_, ?_, ?_, ?_, ?_, ?_⟩ <;> decide

/-- Claim C2 as amended: for `registerSchema(s, hint, toleratesDuplicate =
true)` where `s.name` is already present in the registry, the call returns
the entry already registered under that name — whether or not `s` is that
exact object — and leaves the whole state unchanged: an exact re-registration
is idempotent, a different colliding object is silently dropped (never
renamed, never registered), and the existing entry is never overwritten. -/
theorem tolerated_duplicate_returns_existing (st : SMState) (i j : Nat)
    (hint : Option String) (n : String)
    (hname : (getNode st i).name = some n)
    (hreg : lookupA st.registry n = some j) :
    registerSchema st i hint true = (.ok j, st) := by
  unfold registerSchema registerGo
  simp [nameRegistered, hname, hreg]

/-- Witness for the amended C2 theorem at the concrete collision scenario. -/
theorem tolerated_duplicate_returns_existing_witness :
    registerSchema stDup1 1 none true = (.ok 0, stDup1) :=
  tolerated_duplicate_returns_existing stDup1 1 0 none "x" (by decide) (by decide)

/-! ## Claim C3 — validateModel failures before data inspection -/

/-- Claim C3, evaluated at the failing input: looking up a schema name that
is not registered makes `validateModel` fail — for every data value and
mode, before the data is inspected — but with the TypeError raised by the
catch block's `${schema.name}` interpolation (reading the never-assigned
local `schema`), not with the `UnknownSchema` error that `getSchema` threw;
only the `UnresolvedSchema` half of the claim behaves as stated. -/
theorem unknown_schema_name_raises_type_error :
    (∀ data full, validateModel stM 5 "missing" data full = .error .catchNameTypeError) ∧
    (∀ data full, validateModel stM 5 "u" data full = .error (.unresolvedSchema "u")) ∧
    (Except.error VError.catchNameTypeError : Except VError Bool) ≠
      .error (.unknownSchema "missing") ∧
    getSchemaE stM "missing" = .error (.unknownSchema "missing") :=
  ⟨fun _ _ => rfl, fun _ _ => rfl, by decide, by decide⟩

/-! ## Claim C9 — empty data object passes partial validation -/

/-- Claim C9: for a registered, resolved, non-array map schema, partial
(non-full) validation of a data object with no keys at all succeeds: the
key walk is empty and `defaultIfEmpty(true)` turns it into a pass. -/
theorem empty_object_passes_partial_validation (st : SMState) (fuel i : Nat) (n : String)
    (l : List (String × SType))
    (hreg : lookupA st.registry n = some i)
    (hres : isResolvedObj (getNode st i) = true)
    (harr : (getNode st i).isArray = false)
    (hmap : (getNode st i).stype = .fieldMap l) :
    validateModel st (fuel + 1) n (.obj []) false = .ok true := by
  unfold validateModel
  simp [hreg, hres, harr, validateItemF, hmap, objectKeys, jsKeys, validateFieldsF]

/-- Witness: the `m` schema accepts `{}` in partial mode. -/
theorem empty_object_passes_partial_validation_witness :
    validateModel stM 5 "m" (.obj []) false = .ok true :=
  empty_object_passes_partial_validation stM 4 0 "m" [("a", .func "Number")]
    (by decide) (by decide) (by decide) (by decide)

/-! ## Claim C6 — schemaToObject snapshot display names -/

/-- A registered schema `w` whose fields are a primitive (`Number`) and the
registered custom type `Any` (custom types are stored as plain strings). -/
def nodeW : SchemaObject :=
  { name := some "w"
    stype := .fieldMap [("a", .func "Number"), ("b", .strRef "Any")] }

/-- A manager with `w` registered. -/
def stW : SMState := { initState testStream with arena := [nodeW], registry := [("w", 0)] }

/-- Claim C6 counterexample: the snapshot of `w` renders the primitive
field to its display name, but the custom-type field `b` — stored as the
string `"Any"` — is replaced by `('Any').name`, i.e. JS `undefined`
(`none`), not by the custom-type name: the snapshot is not all plain
display-name strings. -/
theorem snapshot_custom_type_undefined :
    schemaToObject stW "w" = .ok (.mapFields [("a", some "Number"), ("b", none)]) ∧
    (∀ s : String,
      schemaToObject stW "w" ≠ .ok (.mapFields [("a", some "Number"), ("b", some s)])) := by
  refine ⟨by decide, ?_⟩
  intro s h
  rw [show schemaToObject stW "w" = .ok (.mapFields [("a", some "Number"), ("b", none)])
        from by decide] at h
  simp at h

/-- Claim C6 as amended: for every registered map schema the snapshot
replaces each field by its `.name` — the primitive kind name for a
constructor field, the nested schema's registered name for a nested field,
but JS `undefined` (`none`) for a custom-type field, because custom types
are stored as strings and a string has no `name` property.  In particular
the snapshot carries no nested objects, and when every field is a
constructor or a (named) nested schema, every rendered type is a plain
display-name string. -/
theorem snapshot_is_shallow_name_projection (st : SMState) (i : Nat) (n : String)
    (l : List (String × SType))
    (hreg : lookupA st.registry n = some i)
    (hmap : (getNode st i).stype = .fieldMap l) :
    schemaToObject st n = .ok (.mapFields (l.map (fun kv => (kv.1, typeDisplayName st kv.2)))) ∧
    ((∀ kv ∈ l, (∃ f, kv.2 = SType.func f) ∨ ∃ j, kv.2 = SType.node j ∧ (getNode st j).name.isSome) →
      ∀ e ∈ l.map (fun kv => (kv.1, typeDisplayName st kv.2)), e.2.isSome) := by
  constructor
  · unfold schemaToObject
    simp [hreg, hmap]
  · intro hprim e he
    simp only [List.mem_map] at he
    obtain ⟨kv, hkv, rfl⟩ := he
    rcases hprim kv hkv with ⟨f, hf⟩ | ⟨j, hj, hn⟩
    · simp [hf, typeDisplayName]
    · simp [hj, typeDisplayName, hn]

/-- Witness for the amended C6 theorem at the `w` snapshot. -/
theorem snapshot_is_shallow_name_projection_witness :
    schemaToObject stW "w" = .ok (.mapFields [("a", some "Number"), ("b", none)]) := by
  have h := (snapshot_is_shallow_name_projection stW 0 "w"
    [("a", .func "Number"), ("b", .strRef "Any")] (by decide) (by decide)).1
  exact h

/-! ## Claim C5 — array-shape checks and element short-circuit -/

/-- Walking array elements stops at — and reports — the first failing
element; earlier passing elements contribute only `true`s. -/
theorem validateItemsF_first_failure (st : SMState) (recM : RecM) (s : SchemaObject)
    (full : Bool) (xs ys : List JsValue) (e : JsValue) (err : VError)
    (hxs : ∀ x ∈ xs, validateItemF st recM s x full = .ok true)
    (he : validateItemF st recM s e full = .error err) :
    validateItemsF st recM s full (xs ++ e :: ys) = .error err := by
  induction xs with
  | nil => simp [validateItemsF, he, ebind_error]
  | cons x rest ih =>
    have hx := hxs x (by simp)
    have ih' := ih (fun y hy => hxs y (by simp [hy]))
    simp only [List.cons_append, validateItemsF, hx, ebind_ok, List.append_eq]
    simp [ih', ebind_error]

/-- An array schema registered for the C5 witness: `arr` = `[{a : Number}]`. -/
def nodeArr : SchemaObject :=
  { name := some "arr"
    isArray := true
    stype := .fieldMap [("a", .func "Number")] }

/-- A manager with the array schema `arr` and the plain schema `m`. -/
def stArr : SMState := { initState testStream with
  arena := [nodeArr, nodeM]
  registry := [("arr", 0), ("m", 1)] }

/-- Claim C5: for a registered resolved array schema, the empty array
passes unconditionally; a non-array value fails with the array-shape
mismatch error; a non-array schema rejects array data with the same error
kind; and an array whose earlier elements pass fails with exactly the first
failing element's failure. -/
theorem array_shape_and_short_circuit (st : SMState) (fuel ia im : Nat) (na nm : String)
    (full : Bool)
    (hrega : lookupA st.registry na = some ia)
    (hresa : isResolvedObj (getNode st ia) = true)
    (harra : (getNode st ia).isArray = true)
    (hregm : lookupA st.registry nm = some im)
    (hresm : isResolvedObj (getNode st im) = true)
    (harrm : (getNode st im).isArray = false) :
    (validateModel st (fuel + 1) na (.arr []) full = .ok true) ∧
    (∀ data, data.isArr = false →
      validateModel st (fuel + 1) na data full = .error (.arrayShapeMismatch na false)) ∧
    (∀ elems, validateModel st (fuel + 1) nm (.arr elems) full
      = .error (.arrayShapeMismatch nm true)) ∧
    (∀ xs ys e err,
      (∀ x ∈ xs, validateItemF st (validateModel st fuel) (getNode st ia) x full = .ok true) →
      validateItemF st (validateModel st fuel) (getNode st ia) e full = .error err →
      validateModel st (fuel + 1) na (.arr (xs ++ e :: ys)) full = .error err) := by
  refine ⟨?_, ?_, ?_, ?_⟩
  · unfold validateModel
    simp [hrega, hresa, harra, validateItemsF]
  · intro data hdata
    unfold validateModel
    cases data <;> simp_all [JsValue.isArr, hrega, hresa, harra]
  · intro elems
    unfold validateModel
    simp [hregm, hresm, harrm]
  · intro xs ys e err hxs he
    unfold validateModel
    simp [hrega, hresa, harra, validateItemsF_first_failure st _ _ full xs ys e err hxs he]

/-- Witness for C5 at concrete inputs: `[]` passes, an object and a number
fail the shape check, the non-array schema `m` rejects `[]`, and
`[{a: 1}, {a: "bad"}]` reports the second element's type failure. -/
theorem array_shape_and_short_circuit_witness :
    validateModel stArr 5 "arr" (.arr []) false = .ok true ∧
    validateModel stArr 5 "arr" (.num 3) false = .error (.arrayShapeMismatch "arr" false) ∧
    validateModel stArr 5 "m" (.arr []) false = .error (.arrayShapeMismatch "m" true) ∧
    validateModel stArr 5 "arr" (.arr [.obj [("a", .num 1)], .obj [("a", .str "bad")]]) false
      = .error (.incorrectType "arr" "a" "Number") := by
  have h := array_shape_and_short_circuit stArr 4 0 1 "arr" "m" false
    (by decide) (by decide) (by decide) (by decide) (by decide) (by decide)
  refine ⟨h.1, h.2.1 (.num 3) (by decide), h.2.2.1 [], ?_⟩
  exact h.2.2.2 [.obj [("a", .num 1)]] [] (.obj [("a", .str "bad")])
    (.incorrectType "arr" "a" "Number")
    (by intro x hx; simp at hx; subst hx; decide) (by decide)

/-! ## Claims C4 and C10 — undeclared keys and the whitelist -/

/-- In non-full mode the key walk comes from the data itself, and
`validateValue` rejects the first undeclared, non-whitelisted key with the
`Given key … not defined in schema` error — provided the declared (or
whitelisted) keys before it pass their own checks. -/
theorem validateFieldsF_undeclared_key (st : SMState) (recM : RecM) (s : SchemaObject)
    (data : JsValue) (ks : List String)
    (hgood : ∀ k ∈ ks, (fieldLookup s k).isSome → k ∉ st.whitelistedKeys →
      validateValueF st recM s (some k) (getProp data k) false = .ok true)
    (hbad : ∃ k ∈ ks, fieldLookup s k = none ∧ k ∉ st.whitelistedKeys) :
    ∃ k ∈ ks, fieldLookup s k = none ∧ k ∉ st.whitelistedKeys ∧
      validateFieldsF st recM s data false ks = .error (.unknownField (nameStr s) k) := by
  induction ks with
  | nil => simp at hbad
  | cons k rest ih =>
    by_cases hwl : k ∈ st.whitelistedKeys
    · -- a whitelisted key passes unconditionally; the bad key is further on
      have hv : validateValueF st recM s (some k) (getProp data k) false = .ok true := by
        unfold validateValueF
        simp [hwl]
      obtain ⟨kb, hkb, hlb, hwlb⟩ := hbad
      rcases List.mem_cons.mp hkb with rfl | hkb'
      · exact absurd hwl hwlb
      · obtain ⟨k', hk', hl', hwl', hres⟩ :=
          ih (fun y hy => hgood y (List.mem_cons_of_mem _ hy)) ⟨kb, hkb', hlb, hwlb⟩
        refine ⟨k', List.mem_cons_of_mem _ hk', hl', hwl', ?_⟩
        simp [validateFieldsF, hv, ebind_ok, hres, ebind_error]
    · cases hlk : fieldLookup s k with
      | none =>
        refine ⟨k, List.mem_cons_self _ _, hlk, hwl, ?_⟩
        have hv : validateValueF st recM s (some k) (getProp data k) false
            = .error (.unknownField (nameStr s) k) := by
          unfold validateValueF
          simp [hlk, hwl]
        simp [validateFieldsF, hv, ebind_error]
      | some t =>
        have hv := hgood k (List.mem_cons_self _ _) (by simp [hlk]) hwl
        obtain ⟨kb, hkb, hlb, hwlb⟩ := hbad
        rcases List.mem_cons.mp hkb with rfl | hkb'
        · simp [hlk] at hlb
        · obtain ⟨k', hk', hl', hwl', hres⟩ :=
            ih (fun y hy => hgood y (List.mem_cons_of_mem _ hy)) ⟨kb, hkb', hlb, hwlb⟩
          refine ⟨k', List.mem_cons_of_mem _ hk', hl', hwl', ?_⟩
          simp [validateFieldsF, hv, ebind_ok, hres, ebind_error]

/-- In full mode `validateItem` scans the data's own keys first and throws
`UnknownField` at the first key that is neither declared nor whitelisted
(the scan misses an empty-string key, which JS treats as falsy, hence the
`"" ∉ keys` proviso). -/
theorem validateItemF_full_unknown_key (st : SMState) (recM : RecM) (s : SchemaObject)
    (l : List (String × SType)) (fs : List (String × JsValue))
    (hmap : s.stype = .fieldMap l)
    (hbad : ∃ k ∈ fs.map Prod.fst, hasField l k = false ∧ k ∉ st.whitelistedKeys)
    (hne : "" ∉ fs.map Prod.fst) :
    ∃ k ∈ fs.map Prod.fst, hasField l k = false ∧ k ∉ st.whitelistedKeys ∧
      validateItemF st recM s (.obj fs) true = .error (.unknownField (nameStr s) k) := by
  have hfind : ((fs.map Prod.fst).find?
      (fun k => !hasField l k && !decide (k ∈ st.whitelistedKeys))).isSome := by
    rw [List.find?_isSome]
    obtain ⟨k, hk, hl, hwl⟩ := hbad
    exact ⟨k, hk, by simp [hl, hwl]⟩
  obtain ⟨k0, hk0⟩ := Option.isSome_iff_exists.mp hfind
  have hp := List.find?_some hk0
  have hmem := List.mem_of_find?_eq_some hk0
  simp only [Bool.and_eq_true, Bool.not_eq_true', decide_eq_false_iff_not] at hp
  refine ⟨k0, hmem, hp.1, hp.2, ?_⟩
  unfold validateItemF
  have hne0 : k0 ≠ "" := fun h => hne (h ▸ hmem)
  simp [hmap, objectKeys, jsKeys, JsValue.isUndefinedZZ, hk0, hne0]

/-- Claim C4 counterexample: against the map schema `m` (declared field
`a : Number`), data `{a: 1, zz: 2}` — whose only declared present field is
individually valid, as `{a: 1}` alone passes — is rejected in *non-full*
mode with the unknown-field error, where the claim says non-full mode
passes. -/
theorem undeclared_key_fails_partial_counterexample :
    validateModel stM 5 "m" (.obj [("a", .num 1), ("zz", .num 2)]) false
      = .error (.unknownField "m" "zz") ∧
    validateModel stM 5 "m" (.obj [("a", .num 1), ("zz", .num 2)]) false ≠ .ok true ∧
    validateModel stM 5 "m" (.obj [("a", .num 1)]) false = .ok true := by
  refine ⟨?_, ?_, ?_⟩ <;> decide

/-- Claim C4 as amended: for a registered, resolved, non-array map schema,
a data object carrying a key neither declared nor whitelisted fails with
`UnknownField` in *both* modes: in full mode via the data-key scan, and in
non-full mode via `validateValue`'s per-key check (the same error), even
when every present declared field's value is individually valid. -/
theorem undeclared_key_rejected_in_both_modes (st : SMState) (fuel i : Nat) (n : String)
    (l : List (String × SType)) (fs : List (String × JsValue))
    (hreg : lookupA st.registry n = some i)
    (hres : isResolvedObj (getNode st i) = true)
    (harr : (getNode st i).isArray = false)
    (hmap : (getNode st i).stype = .fieldMap l)
    (hname : (getNode st i).name = some n) :
    ((∃ k ∈ fs.map Prod.fst, hasField l k = false ∧ k ∉ st.whitelistedKeys) →
      "" ∉ fs.map Prod.fst →
      ∃ k ∈ fs.map Prod.fst, hasField l k = false ∧ k ∉ st.whitelistedKeys ∧
        validateModel st (fuel + 1) n (.obj fs) true = .error (.unknownField n k)) ∧
    ((∀ k ∈ fs.map Prod.fst, (fieldLookup (getNode st i) k).isSome →
        k ∉ st.whitelistedKeys →
        validateValueF st (validateModel st fuel) (getNode st i) (some k)
          (getProp (.obj fs) k) false = .ok true) →
      (∃ k ∈ fs.map Prod.fst, fieldLookup (getNode st i) k = none ∧ k ∉ st.whitelistedKeys) →
      ∃ k ∈ fs.map Prod.fst, fieldLookup (getNode st i) k = none ∧ k ∉ st.whitelistedKeys ∧
        validateModel st (fuel + 1) n (.obj fs) false = .error (.unknownField n k)) := by
  have hnstr : nameStr (getNode st i) = n := by simp [nameStr, hname]
  constructor
  · intro hbad hne
    obtain ⟨k, hk, hl, hwl, hitem⟩ :=
      validateItemF_full_unknown_key st (validateModel st fuel) (getNode st i) l fs hmap hbad hne
    refine ⟨k, hk, hl, hwl, ?_⟩
    unfold validateModel
    simp [hreg, hres, harr, hitem, hnstr]
  · intro hgood hbad
    obtain ⟨k, hk, hl, hwl, hflds⟩ :=
      validateFieldsF_undeclared_key st (validateModel st fuel) (getNode st i)
        (.obj fs) (fs.map Prod.fst) hgood hbad
    refine ⟨k, hk, hl, hwl, ?_⟩
    unfold validateModel
    simp only [hreg]
    simp [hres, harr, validateItemF, hmap, objectKeys, jsKeys, hflds, hnstr]

/-- Witness for the amended C4 theorem: `{a: 1, zz: 2}` against `m` is
rejected with `UnknownField "m" "zz"` in full mode and in non-full mode. -/
theorem undeclared_key_rejected_in_both_modes_witness :
    validateModel stM 5 "m" (.obj [("a", .num 1), ("zz", .num 2)]) true
      = .error (.unknownField "m" "zz") ∧
    validateModel stM 5 "m" (.obj [("a", .num 1), ("zz", .num 2)]) false
      = .error (.unknownField "m" "zz") := by
  have h := undeclared_key_rejected_in_both_modes stM 4 0 "m"
    [("a", .func "Number")] [("a", .num 1), ("zz", .num 2)]
    (by decide) (by decide) (by decide) (by decide) (by decide)
  constructor
  · obtain ⟨k, hk, hl, hwl, hres⟩ := h.1
      ⟨"zz", by decide, by decide, by decide⟩ (by decide)
    have hkzz : k = "zz" := by
      simp only [List.map_cons, List.map_nil, List.mem_cons, List.not_mem_nil, or_false] at hk
      rcases hk with rfl | rfl
      · revert hl; decide
      · rfl
    exact hkzz ▸ hres
  · obtain ⟨k, hk, hl, hwl, hres⟩ := h.2
      (by intro k hk hdecl hwl
          simp only [List.map_cons, List.map_nil, List.mem_cons, List.not_mem_nil,
            or_false] at hk
          rcases hk with rfl | rfl
          · decide
          · revert hdecl; decide)
      ⟨"zz", by decide, by decide, by decide⟩
    have hkzz : k = "zz" := by
      simp only [List.map_cons, List.map_nil, List.mem_cons, List.not_mem_nil, or_false] at hk
      rcases hk with rfl | rfl
      · revert hl; decide
      · rfl
    exact hkzz ▸ hres

/-- A registered single-type schema whose sole type is the custom type
`Any`: single-type validation dispatches on the bare value and never scans
the data's keys. -/
def nodeSingleAny : SchemaObject := { name := some "s1", stype := .single (.strRef "Any") }

/-- A manager with the single-type `Any` schema registered. -/
def stSingleAny : SMState := { initState testStream with
  arena := [nodeSingleAny]
  registry := [("s1", 0)] }

/-- Claim C10 counterexample to the "for every schema" quantification: with
the whitelist still empty, full-mode validation of `{_id: "x"}` against a
registered resolved *single-type* schema (`Any`) passes — the single-type
path never inspects the data's keys, so no `UnknownField` is produced. -/
theorem single_type_schema_ignores_bookkeeping_keys :
    stSingleAny.whitelistedKeys = [] ∧
    validateModel stSingleAny 5 "s1" (.obj [("_id", .str "x")]) true = .ok true := by
  refine ⟨?_, ?_⟩ <;> decide

/-- Claim C10 as amended: a newly constructed Validator has an empty
whitelist of always-allowed keys; consequently full-mode validation
against any registered resolved non-array *map* schema of data containing
an undeclared bookkeeping key (such as `_id`) fails as an unknown field —
unless the caller first appends that key to `whitelistedKeys` at runtime,
after which the same data passes.  (Single-type schemas never scan the
data's keys, as the counterexample shows.) -/
theorem fresh_whitelist_rejects_bookkeeping_keys :
    (∀ stream, (initState stream).whitelistedKeys = []) ∧
    (∀ (st : SMState) (fuel i : Nat) (n : String) (l : List (String × SType))
        (fs : List (String × JsValue)) (k : String),
      st.whitelistedKeys = [] →
      lookupA st.registry n = some i →
      isResolvedObj (getNode st i) = true →
      (getNode st i).isArray = false →
      (getNode st i).stype = .fieldMap l →
      (getNode st i).name = some n →
      k ∈ fs.map Prod.fst → hasField l k = false → "" ∉ fs.map Prod.fst →
      ∃ k', k' ∈ fs.map Prod.fst ∧ hasField l k' = false ∧
        validateModel st (fuel + 1) n (.obj fs) true = .error (.unknownField n k')) ∧
    (validateModel { stM with whitelistedKeys := ["_id"] } 5 "m"
      (.obj [("_id", .str "x"), ("a", .num 1)]) true = .ok true) := by
  refine ⟨fun _ => rfl, ?_, by decide⟩
  intro st fuel i n l fs k hwl hreg hres harr hmap hname hk hl hne
  have hnstr : nameStr (getNode st i) = n := by simp [nameStr, hname]
  obtain ⟨k', hk', hl', _, hitem⟩ :=
    validateItemF_full_unknown_key st (validateModel st fuel) (getNode st i) l fs hmap
      ⟨k, hk, hl, by simp [hwl]⟩ hne
  refine ⟨k', hk', hl', ?_⟩
  unfold validateModel
  simp [hreg, hres, harr, hitem, hnstr]

/-- Witness for C10: the fresh whitelist is empty, `{_id: "x", a: 1}`
against `m` fails in full mode with `UnknownField "m" "_id"`, and passes
once `_id` is appended to the whitelist. -/
theorem fresh_whitelist_rejects_bookkeeping_keys_witness :
    (initState testStream).whitelistedKeys = [] ∧
    validateModel stM 5 "m" (.obj [("_id", .str "x"), ("a", .num 1)]) true
      = .error (.unknownField "m" "_id") ∧
    validateModel { stM with whitelistedKeys := ["_id"] } 5 "m"
      (.obj [("_id", .str "x"), ("a", .num 1)]) true = .ok true := by
  have h := fresh_whitelist_rejects_bookkeeping_keys
  refine ⟨h.1 testStream, ?_, h.2.2⟩
  obtain ⟨k', hk', hl', hres⟩ := h.2.1 stM 4 0 "m" [("a", .func "Number")]
    [("_id", .str "x"), ("a", .num 1)] "_id" (by decide) (by decide) (by decide)
    (by decide) (by decide) (by decide) (by decide) (by decide) (by decide)
  have hkid : k' = "_id" := by
    simp only [List.map_cons, List.map_nil, List.mem_cons, List.not_mem_nil, or_false] at hk'
    rcases hk' with rfl | rfl
    · rfl
    · revert hl'; decide
  exact hkid ▸ hres

/-! ## Claim C7 — resolveAll aggregates every unresolved schema -/

/-- Registry well-formedness: every registered name maps to an in-range
arena node that carries that name (this is what `_registerSchema`
establishes: it assigns `schema.name` and then stores the object under
exactly that name). -/
def WFReg (st : SMState) : Prop :=
  ∀ n i, lookupA st.registry n = some i →
    i < st.arena.length ∧ (getNode st i).name = some n

/-- The registry holds each name at most once (JS object keys are unique). -/
def NodupKeys (st : SMState) : Prop := (st.registry.map Prod.fst).Nodup

/-- Whether the schema registered under `n` is resolved (vacuously true for
an unregistered name). -/
def isResolvedName (st : SMState) (n : String) : Bool :=
  match lookupA st.registry n with
  | some i => isResolvedObj (getNode st i)
  | none => true

/-- The registered names whose schemas are unresolved, in registry order. -/
def unresolvedNames (st : SMState) : List String :=
  (st.registry.map Prod.fst).filter (fun n => !isResolvedName st n)

theorem setNode_registry (st : SMState) (i : Nat) (f : SchemaObject → SchemaObject) :
    (setNode st i f).registry = st.registry := rfl

theorem setNode_length (st : SMState) (i : Nat) (f : SchemaObject → SchemaObject) :
    (setNode st i f).arena.length = st.arena.length := by
  simp [setNode]

theorem getNode_setNode_ne (st : SMState) (i : Nat) (f : SchemaObject → SchemaObject)
    (j : Nat) (h : j ≠ i) : getNode (setNode st i f) j = getNode st j := by
  simp [getNode, setNode, List.getD_eq_getElem?_getD, List.getElem?_set_ne (Ne.symm h)]

theorem getNode_setNode_self (st : SMState) (i : Nat) (f : SchemaObject → SchemaObject)
    (h : i < st.arena.length) : getNode (setNode st i f) i = f (getNode st i) := by
  simp [getNode, setNode, List.getD_eq_getElem?_getD, List.getElem?_set_self h]

/-- An unresolved node is a real arena entry (the out-of-range default is
resolved). -/
theorem unresolved_in_range (st : SMState) (i : Nat)
    (h : isResolvedObj (getNode st i) = false) : i < st.arena.length := by
  by_contra hge
  have : getNode st i = {} := by
    simp [getNode, List.getD_eq_getElem?_getD, List.getElem?_eq_none (Nat.le_of_not_lt hge)]
  rw [this] at h
  simp [isResolvedObj] at h

theorem resolveSchemaFn_registry (st : SMState) (i : Nat) :
    (resolveSchemaFn st i).2.registry = st.registry := by
  unfold resolveSchemaFn
  dsimp only
  repeat' split <;> rfl

theorem resolveSchemaFn_length (st : SMState) (i : Nat) :
    (resolveSchemaFn st i).2.arena.length = st.arena.length := by
  unfold resolveSchemaFn
  dsimp only
  repeat' split <;> simp [setNode]

theorem resolveSchemaFn_other (st : SMState) (i j : Nat) (h : j ≠ i) :
    getNode (resolveSchemaFn st i).2 j = getNode st j := by
  unfold resolveSchemaFn
  dsimp only
  repeat' split <;> first | rfl | rw [getNode_setNode_ne st i _ j h]

theorem resolveNode_name (reg : List (String × Nat)) (cts : List String)
    (s : SchemaObject) : (resolveNode reg cts s).2.name = s.name := by
  unfold resolveNode
  dsimp only
  split
  · split
    · split
      · rfl
      · split <;> rfl
    · rfl
    · rfl
  · rfl

theorem resolveNode_result (reg : List (String × Nat)) (cts : List String)
    (s : SchemaObject) :
    (resolveNode reg cts s).1 = isResolvedObj (resolveNode reg cts s).2 := by
  unfold resolveNode
  dsimp only
  split
  · split
    · split
      · simp [isResolvedObj]
      · split <;> simp [isResolvedObj]
    · simp [isResolvedObj]
    · simp [isResolvedObj]
  · rename_i l heq
    cases h : (List.foldl (resolveStep reg cts) ([], true) l).2 <;> simp [isResolvedObj, h]

theorem resolveSchemaFn_name (st : SMState) (i : Nat) :
    (getNode (resolveSchemaFn st i).2 i).name = (getNode st i).name := by
  by_cases hres : isResolvedObj (getNode st i)
  · unfold resolveSchemaFn
    simp [hres]
  · have hlt := unresolved_in_range st i (by simpa using hres)
    unfold resolveSchemaFn
    dsimp only
    simp [hres, getNode_setNode_self _ _ _ hlt, resolveNode_name]

theorem resolveSchemaFn_result (st : SMState) (i : Nat) :
    (resolveSchemaFn st i).1 = isResolvedObj (getNode (resolveSchemaFn st i).2 i) := by
  by_cases hres : isResolvedObj (getNode st i)
  · unfold resolveSchemaFn
    simp [hres]
  · have hlt := unresolved_in_range st i (by simpa using hres)
    unfold resolveSchemaFn
    dsimp only
    simp [hres, getNode_setNode_self _ _ _ hlt, resolveNode_result]

theorem WFReg_resolveSchemaFn (st : SMState) (i : Nat) (h : WFReg st) :
    WFReg (resolveSchemaFn st i).2 := by
  intro n j hl
  rw [resolveSchemaFn_registry] at hl
  obtain ⟨hlt, hname⟩ := h n j hl
  refine ⟨by rw [resolveSchemaFn_length]; exact hlt, ?_⟩
  by_cases hij : j = i
  · subst hij
    rw [resolveSchemaFn_name]
    exact hname
  · rw [resolveSchemaFn_other st i j hij]
    exact hname

theorem resolveAllGo_registry (names : List String) :
    ∀ (st : SMState) (acc : List String),
    (resolveAllGo st names acc).1.registry = st.registry := by
  induction names with
  | nil => intro st acc; rfl
  | cons n rest ih =>
    intro st acc
    unfold resolveAllGo
    cases hl : lookupA st.registry n with
    | none => exact ih st acc
    | some i =>
      dsimp only
      split
      · exact ih st acc
      · rw [ih, resolveSchemaFn_registry]

theorem resolveAllGo_untouched (names : List String) :
    ∀ (st : SMState) (acc : List String) (j : Nat),
    (∀ n ∈ names, lookupA st.registry n ≠ some j) →
    getNode (resolveAllGo st names acc).1 j = getNode st j := by
  induction names with
  | nil => intro st acc j _; rfl
  | cons n rest ih =>
    intro st acc j h
    unfold resolveAllGo
    cases hl : lookupA st.registry n with
    | none => exact ih st acc j (fun m hm => h m (List.mem_cons_of_mem _ hm))
    | some i =>
      dsimp only
      split
      · exact ih st acc j (fun m hm => h m (List.mem_cons_of_mem _ hm))
      · have hji : j ≠ i := fun he => h n (List.mem_cons_self _ _) (he ▸ hl)
        rw [ih _ _ j (fun m hm => by
            rw [resolveSchemaFn_registry]
            exact h m (List.mem_cons_of_mem _ hm)),
          resolveSchemaFn_other st i j hji]

/-- The names pushed by `resolveAll`'s walk are exactly the registered
names of the walk that are still unresolved when the walk finishes. -/
theorem resolveAllGo_collects (names : List String) :
    ∀ (st : SMState) (acc : List String), WFReg st → names.Nodup →
    (∀ n ∈ names, (lookupA st.registry n).isSome) →
    (resolveAllGo st names acc).2
      = acc ++ names.filter (fun n => !isResolvedName (resolveAllGo st names acc).1 n) := by
  induction names with
  | nil => intro st acc _ _ _; simp [resolveAllGo]
  | cons n rest ih =>
    intro st acc hWF hnd hsome
    obtain ⟨i, hl⟩ := Option.isSome_iff_exists.mp (hsome n (List.mem_cons_self _ _))
    have hnrest : n ∉ rest := (List.nodup_cons.mp hnd).1
    unfold resolveAllGo
    rw [hl]
    dsimp only
    by_cases hres : isResolvedObj (getNode st i)
    · rw [if_pos hres]
      have hrec := ih st acc hWF (List.nodup_cons.mp hnd).2
        (fun m hm => hsome m (List.mem_cons_of_mem _ hm))
      rw [hrec]
      have hstable : getNode (resolveAllGo st rest acc).1 i = getNode st i := by
        apply resolveAllGo_untouched
        intro m hm hlm
        have h2 := (hWF m i hlm).2
        rw [(hWF n i hl).2] at h2
        exact hnrest ((Option.some_inj.mp h2) ▸ hm)
      have hfin : isResolvedName (resolveAllGo st rest acc).1 n = true := by
        unfold isResolvedName
        rw [resolveAllGo_registry, hl]
        dsimp only
        rw [hstable]
        exact hres
      simp [List.filter_cons, hfin]
    · rw [if_neg hres]
      have hreg1 : (resolveSchemaFn st i).2.registry = st.registry := resolveSchemaFn_registry st i
      have hWF1 : WFReg (resolveSchemaFn st i).2 := WFReg_resolveSchemaFn st i hWF
      have hrec := ih (resolveSchemaFn st i).2
        (if (resolveSchemaFn st i).1 then acc else acc ++ [n])
        hWF1 (List.nodup_cons.mp hnd).2
        (fun m hm => by rw [hreg1]; exact hsome m (List.mem_cons_of_mem _ hm))
      have hstable : getNode (resolveAllGo (resolveSchemaFn st i).2 rest
          (if (resolveSchemaFn st i).1 then acc else acc ++ [n])).1 i
          = getNode (resolveSchemaFn st i).2 i := by
        apply resolveAllGo_untouched
        intro m hm hlm
        rw [hreg1] at hlm
        have h2 := (hWF m i hlm).2
        rw [(hWF n i hl).2] at h2
        exact hnrest ((Option.some_inj.mp h2) ▸ hm)
      have hfin : isResolvedName (resolveAllGo (resolveSchemaFn st i).2 rest
          (if (resolveSchemaFn st i).1 then acc else acc ++ [n])).1 n
          = (resolveSchemaFn st i).1 := by
        unfold isResolvedName
        rw [resolveAllGo_registry, hreg1, hl]
        dsimp only
        rw [hstable, ← resolveSchemaFn_result]
      cases hr : (resolveSchemaFn st i).1 with
      | true =>
        simp only [hr, if_true] at hrec hfin ⊢
        rw [hrec]
        simp [List.filter_cons, hfin]
      | false =>
        simp only [hr, Bool.false_eq_true, if_false] at hrec hfin ⊢
        rw [hrec]
        simp [List.filter_cons, hfin]

/-- Claim C7: when `resolveAll` runs, it fails with one combined
`UnresolvableSchemas` error naming exactly the registered schemas that are
still unresolved after the pass (all of them, in registry order) whenever
at least one remains; and it returns success exactly when every registered
schema ends up resolved. -/
theorem resolveAll_collects_every_unresolved (st : SMState)
    (hWF : WFReg st) (hnd : NodupKeys st) :
    ((resolveAll st).1 = if unresolvedNames (resolveAll st).2 = [] then .ok true
      else .error (.unresolvableSchemas (unresolvedNames (resolveAll st).2))) ∧
    ((resolveAll st).1 = .ok true → ∀ n, isResolvedName (resolveAll st).2 n = true) := by
  have hcol := resolveAllGo_collects (st.registry.map Prod.fst) st [] hWF hnd
    (fun m hm => lookupA_isSome_of_mem_keys hm)
  have hregF := resolveAllGo_registry (st.registry.map Prod.fst) st []
  have hun : unresolvedNames (resolveAllGo st (st.registry.map Prod.fst) []).1
      = (resolveAllGo st (st.registry.map Prod.fst) []).2 := by
    rw [hcol]
    unfold unresolvedNames
    rw [hregF]
    simp
  have h2 : (resolveAll st).2 = (resolveAllGo st (st.registry.map Prod.fst) []).1 := by
    unfold resolveAll
    dsimp only
    split <;> rfl
  constructor
  · rw [h2, hun]
    unfold resolveAll
    dsimp only
    cases hcase : (resolveAllGo st (st.registry.map Prod.fst) []).2 with
    | nil => simp [hcase]
    | cons a l => simp [hcase]
  · intro hok n
    rw [h2]
    have hemp : (resolveAllGo st (st.registry.map Prod.fst) []).2 = [] := by
      by_contra hne
      unfold resolveAll at hok
      dsimp only at hok
      cases hcase : (resolveAllGo st (st.registry.map Prod.fst) []).2 with
      | nil => exact hne hcase
      | cons a l => rw [hcase] at hok; simp at hok
    have hfilter : List.filter
        (fun m => !isResolvedName (resolveAllGo st (st.registry.map Prod.fst) []).1 m)
        (st.registry.map Prod.fst) = [] := by
      rw [hemp] at hcol
      simpa using hcol.symm
    by_cases hn : (lookupA (resolveAllGo st (st.registry.map Prod.fst) []).1.registry n).isSome
    · have hmem : n ∈ (resolveAllGo st (st.registry.map Prod.fst) []).1.registry.map Prod.fst :=
        mem_keys_of_lookupA_isSome hn
      rw [hregF] at hmem
      by_contra hnr
      have hb : isResolvedName (resolveAllGo st (st.registry.map Prod.fst) []).1 n = false := by
        revert hnr
        cases isResolvedName (resolveAllGo st (st.registry.map Prod.fst) []).1 n <;> simp
      have hmem2 : n ∈ List.filter
          (fun m => !isResolvedName (resolveAllGo st (st.registry.map Prod.fst) []).1 m)
          (st.registry.map Prod.fst) :=
        List.mem_filter.mpr ⟨hmem, by simp [hb]⟩
      rw [hfilter] at hmem2
      exact absurd hmem2 (List.not_mem_nil n)
    · unfold isResolvedName
      cases hcase : lookupA (resolveAllGo st (st.registry.map Prod.fst) []).1.registry n with
      | none => rfl
      | some j => rw [hcase] at hn; simp at hn

theorem lookupA_mem {α : Type} {l : List (String × α)} {n : String} {v : α}
    (h : lookupA l n = some v) : (n, v) ∈ l := by
  induction l with
  | nil => simp [lookupA] at h
  | cons p rest ih =>
    by_cases hp : p.1 = n
    · simp only [lookupA, hp, if_pos] at h
      cases h
      simp only [List.mem_cons]
      left
      rw [← hp]
    · simp only [lookupA, hp, if_false] at h
      exact List.mem_cons_of_mem _ (ih h)

/-- A decidable sufficient condition for registry well-formedness. -/
theorem WFReg_of_entries (st : SMState)
    (h : ∀ p ∈ st.registry, p.2 < st.arena.length ∧ (getNode st p.2).name = some p.1) :
    WFReg st :=
  fun n i hl => h (n, i) (lookupA_mem hl)

/-- Schemas `p` and `q` both holding references no registration will ever
satisfy. -/
def nodeP : SchemaObject :=
  { name := some "p"
    stype := .fieldMap [("r", .strRef "nope")]
    resolvedFlag := some false }

/-- Second unresolvable schema. -/
def nodeQ : SchemaObject :=
  { name := some "q"
    stype := .fieldMap [("r", .strRef "alsoNope")]
    resolvedFlag := some false }

/-- A manager with two registered schemas that can never resolve. -/
def stBad : SMState := { initState testStream with
  arena := [nodeP, nodeQ]
  registry := [("p", 0), ("q", 1)] }

/-- Witness for C7: resolving the cycle fixture succeeds with every schema
resolved, and resolving the two-dangling-schema fixture fails with one
error listing both names. -/
theorem resolveAll_collects_every_unresolved_witness :
    (resolveAll stCycle2).1 = .ok true ∧
    isResolvedName (resolveAll stCycle2).2 "a" = true ∧
    (resolveAll stBad).1 = .error (.unresolvableSchemas ["p", "q"]) := by
  have hGood := resolveAll_collects_every_unresolved stCycle2
    (WFReg_of_entries stCycle2 (by decide))
    (show (stCycle2.registry.map Prod.fst).Nodup from by decide)
  have hBad := resolveAll_collects_every_unresolved stBad
    (WFReg_of_entries stBad (by decide))
    (show (stBad.registry.map Prod.fst).Nodup from by decide)
  have h1 : (resolveAll stCycle2).1 = .ok true := by
    rw [hGood.1, show unresolvedNames (resolveAll stCycle2).2 = [] from by decide]
    rfl
  refine ⟨h1, hGood.2 h1 "a", ?_⟩
  rw [hBad.1, show unresolvedNames (resolveAll stBad).2 = ["p", "q"] from by decide]
  rfl

/-! ## Claim C8 — frame condition on registered schemas -/

/-- Every arena node carries an explicit (truthy) name, so no name is ever
generated during registration. -/
def AllNamed (st : SMState) : Prop :=
  ∀ j, j < st.arena.length → optTruthy (getNode st j).name = true

/-- Every nested-schema link points inside the arena. -/
def ArenaClosed (st : SMState) : Prop :=
  ∀ j, j < st.arena.length →
    ∀ m, SType.node m ∈ typeEntries (getNode st j) → m < st.arena.length

/-- An operation's index argument denotes a real object. -/
def opInRange (st : SMState) : Op → Prop
  | .reg i _ _ => i < st.arena.length
  | _ => True

/-- How one field's `SchemaType` may change over time: either not at all,
or by the Resolver replacing a `Reference` string with a `Nested` link to
the schema registered under that name. -/
def sTypeEvolves (reg : List (String × Nat)) (t t' : SType) : Prop :=
  t' = t ∨ ∃ v j, t = .strRef v ∧ t' = .node j ∧ lookupA reg v = some j

/-- How a schema's whole `type` may change: pointwise field evolution with
the key set, order, and single/map shape untouched. -/
def fieldsEvolve (reg : List (String × Nat)) : SchemaTypeVal → SchemaTypeVal → Prop
  | .single t, .single t' => sTypeEvolves reg t t'
  | .fieldMap l, .fieldMap l' =>
    l'.length = l.length ∧
    ∀ (k : Nat) (p p' : String × SType), l[k]? = some p → l'[k]? = some p' →
      p.1 = p'.1 ∧ sTypeEvolves reg p.2 p'.2
  | _, _ => False

theorem fieldsEvolve_refl (reg : List (String × Nat)) (a : SchemaTypeVal) :
    fieldsEvolve reg a a := by
  cases a with
  | single t => exact Or.inl rfl
  | fieldMap l =>
    refine ⟨rfl, fun k p p' h h' => ?_⟩
    rw [h] at h'
    cases h'
    exact ⟨rfl, Or.inl rfl⟩

theorem sTypeEvolves_trans (reg : List (String × Nat)) (a b c : SType)
    (h1 : sTypeEvolves reg a b) (h2 : sTypeEvolves reg b c) : sTypeEvolves reg a c := by
  rcases h2 with rfl | ⟨v, j, hb, hc, hl⟩
  · exact h1
  · rcases h1 with rfl | ⟨v', j', ha, hb', _⟩
    · exact Or.inr ⟨v, j, hb, hc, hl⟩
    · rw [hb'] at hb
      cases hb

theorem fieldsEvolve_trans (reg : List (String × Nat)) (a b c : SchemaTypeVal)
    (h1 : fieldsEvolve reg a b) (h2 : fieldsEvolve reg b c) : fieldsEvolve reg a c := by
  cases a with
  | single ta =>
    cases b with
    | single tb =>
      cases c with
      | single tc => exact sTypeEvolves_trans reg ta tb tc h1 h2
      | fieldMap lc => exact h2.elim
    | fieldMap lb => exact h1.elim
  | fieldMap la =>
    cases b with
    | single tb => exact h1.elim
    | fieldMap lb =>
      cases c with
      | single tc => exact h2.elim
      | fieldMap lc =>
        refine ⟨h2.1.trans h1.1, fun k p p' hp hp' => ?_⟩
        have hk : k < lb.length := by
          rw [h1.1]
          exact (List.getElem?_eq_some_iff.mp hp).1
        obtain ⟨q, hq⟩ : ∃ q, lb[k]? = some q :=
          ⟨lb[k], List.getElem?_eq_getElem hk⟩
        obtain ⟨e1k, e1⟩ := h1.2 k p q hp hq
        obtain ⟨e2k, e2⟩ := h2.2 k q p' hq hp'
        exact ⟨e1k.trans e2k, sTypeEvolves_trans reg _ _ _ e1 e2⟩

/-- The rewrite `resolveSchema` applies to one field entry. -/
def resolveRewrite (reg : List (String × Nat)) (kv : String × SType) : String × SType :=
  match kv.2 with
  | .strRef v =>
    match lookupA reg v with
    | some j => (kv.1, .node j)
    | none => kv
  | _ => kv

theorem foldl_resolveStep_fst (reg : List (String × Nat)) (cts : List String) :
    ∀ (l : List (String × SType)) (acc : List (String × SType)) (b : Bool),
    (l.foldl (resolveStep reg cts) (acc, b)).1 = acc ++ l.map (resolveRewrite reg) := by
  intro l
  induction l with
  | nil => intro acc b; simp
  | cons kv rest ih =>
    intro acc b
    have hstep : ∃ b', resolveStep reg cts (acc, b) kv = (acc ++ [resolveRewrite reg kv], b') := by
      unfold resolveStep resolveRewrite
      rcases kv with ⟨k, t⟩
      cases t with
      | strRef v =>
        dsimp only
        cases lookupA reg v with
        | some j => exact ⟨b, rfl⟩
        | none =>
          dsimp only
          split
          · exact ⟨b, rfl⟩
          · exact ⟨false, rfl⟩
      | func f => exact ⟨b, rfl⟩
      | node m => exact ⟨b, rfl⟩
    obtain ⟨b', hb'⟩ := hstep
    calc (List.foldl (resolveStep reg cts) (acc, b) (kv :: rest)).1
        = (List.foldl (resolveStep reg cts) (acc ++ [resolveRewrite reg kv], b') rest).1 := by
          rw [List.foldl_cons, hb']
      _ = (acc ++ [resolveRewrite reg kv]) ++ rest.map (resolveRewrite reg) := ih _ b'
      _ = acc ++ (kv :: rest).map (resolveRewrite reg) := by simp

theorem resolveRewrite_evolves (reg : List (String × Nat)) (kv : String × SType) :
    kv.1 = (resolveRewrite reg kv).1 ∧ sTypeEvolves reg kv.2 (resolveRewrite reg kv).2 := by
  unfold resolveRewrite
  rcases kv with ⟨k, t⟩
  cases t with
  | strRef v =>
    dsimp only
    cases hl : lookupA reg v with
    | some j => exact ⟨rfl, Or.inr ⟨v, j, rfl, rfl, hl⟩⟩
    | none => exact ⟨rfl, Or.inl rfl⟩
  | func f => exact ⟨rfl, Or.inl rfl⟩
  | node m => exact ⟨rfl, Or.inl rfl⟩

theorem resolveNode_evolves (reg : List (String × Nat)) (cts : List String)
    (s : SchemaObject) : fieldsEvolve reg s.stype (resolveNode reg cts s).2.stype := by
  unfold resolveNode
  cases hs : s.stype with
  | single t =>
    cases t with
    | strRef v =>
      dsimp only
      cases hl : lookupA reg v with
      | some j => exact Or.inr ⟨v, j, rfl, rfl, hl⟩
      | none =>
        dsimp only
        split <;> (dsimp only; exact fieldsEvolve_refl reg _)
    | func f => dsimp only; exact fieldsEvolve_refl reg _
    | node m => dsimp only; exact fieldsEvolve_refl reg _
  | fieldMap l =>
    dsimp only
    rw [foldl_resolveStep_fst reg cts l [] true]
    refine ⟨by simp, fun k p p' hp hp' => ?_⟩
    rw [List.nil_append, List.getElem?_map, hp] at hp'
    cases hp'
    exact resolveRewrite_evolves reg p

theorem resolveSchemaFn_evolves (st : SMState) (i : Nat) :
    fieldsEvolve st.registry (getNode st i).stype (getNode (resolveSchemaFn st i).2 i).stype := by
  by_cases hres : isResolvedObj (getNode st i)
  · unfold resolveSchemaFn
    simp only [hres, if_true]
    exact fieldsEvolve_refl _ _
  · have hlt := unresolved_in_range st i (by simpa using hres)
    unfold resolveSchemaFn
    dsimp only
    simp only [hres, Bool.false_eq_true, if_false]
    rw [getNode_setNode_self _ _ _ hlt]
    exact resolveNode_evolves _ _ _

theorem resolveAllGo_evolves (names : List String) :
    ∀ (st : SMState) (acc : List String) (j : Nat),
    (getNode (resolveAllGo st names acc).1 j).name = (getNode st j).name ∧
    fieldsEvolve st.registry (getNode st j).stype
      (getNode (resolveAllGo st names acc).1 j).stype := by
  induction names with
  | nil => intro st acc j; exact ⟨rfl, fieldsEvolve_refl _ _⟩
  | cons n rest ih =>
    intro st acc j
    unfold resolveAllGo
    cases hl : lookupA st.registry n with
    | none => exact ih st acc j
    | some i =>
      dsimp only
      split
      · exact ih st acc j
      · have hreg1 : (resolveSchemaFn st i).2.registry = st.registry :=
          resolveSchemaFn_registry st i
        have hrec := ih (resolveSchemaFn st i).2
          (if (resolveSchemaFn st i).1 = true then acc else acc ++ [n]) j
        rw [hreg1] at hrec
        by_cases hji : j = i
        · subst hji
          refine ⟨hrec.1.trans (resolveSchemaFn_name st j), ?_⟩
          exact fieldsEvolve_trans _ _ _ _ (resolveSchemaFn_evolves st j) hrec.2
        · rw [resolveSchemaFn_other st i j hji] at hrec
          exact hrec

theorem setNode_out_of_range (st : SMState) (i : Nat) (f : SchemaObject → SchemaObject)
    (h : st.arena.length ≤ i) : (setNode st i f).arena = st.arena := by
  simp [setNode, List.set_eq_of_length_le h]

/-- A node update that keeps the updated node's `name` and `stype` keeps
them at every index. -/
theorem getNode_setNode_pointwise (st : SMState) (i : Nat)
    (f : SchemaObject → SchemaObject)
    (hf : (f (getNode st i)).name = (getNode st i).name ∧
      (f (getNode st i)).stype = (getNode st i).stype) (j : Nat) :
    (getNode (setNode st i f) j).name = (getNode st j).name ∧
    (getNode (setNode st i f) j).stype = (getNode st j).stype := by
  by_cases hji : j = i
  · subst hji
    by_cases hlt : j < st.arena.length
    · rw [getNode_setNode_self _ _ _ hlt]
      exact hf
    · have harena : (setNode st j f).arena = st.arena :=
        setNode_out_of_range st j f (Nat.le_of_not_lt hlt)
      have : getNode (setNode st j f) j = getNode st j := by
        unfold getNode
        rw [harena]
      rw [this]
      exact ⟨rfl, rfl⟩
  · rw [getNode_setNode_ne st i f j hji]
    exact ⟨rfl, rfl⟩

theorem lookupA_assocSet_self {α : Type} (l : List (String × α)) (k : String) (v : α) :
    lookupA (assocSet l k v) k = some v := by
  induction l with
  | nil => simp [assocSet, lookupA]
  | cons p rest ih =>
    by_cases hp : p.1 = k
    · simp [assocSet, lookupA, hp]
    · simp [assocSet, lookupA, hp, ih]

theorem lookupA_assocSet_ne {α : Type} (l : List (String × α)) (k : String) (v : α)
    (n : String) (h : n ≠ k) : lookupA (assocSet l k v) n = lookupA l n := by
  induction l with
  | nil =>
    simp only [assocSet, lookupA]
    rw [if_neg (fun he => h he.symm)]
  | cons p rest ih =>
    rcases p with ⟨pk, pv⟩
    by_cases hp : pk = k
    · subst hp
      simp only [assocSet, lookupA, if_pos rfl]
      rw [if_neg (fun he => h he.symm), if_neg (fun he => h he.symm)]
    · simp only [assocSet, lookupA, if_neg hp]
      by_cases hpn : pk = n
      · rw [if_pos hpn, if_pos hpn]
      · rw [if_neg hpn, if_neg hpn]
        exact ih

/-- What registration is allowed to do to the observable state: keep the
arena size, every node's name and type, and every existing registry
binding (it only adds bindings and flips resolved flags). -/
def RegPres (st st' : SMState) : Prop :=
  st'.arena.length = st.arena.length ∧
  (∀ j, (getNode st' j).name = (getNode st j).name ∧
    (getNode st' j).stype = (getNode st j).stype) ∧
  (∀ n j, lookupA st.registry n = some j → lookupA st'.registry n = some j)

theorem RegPres_refl (st : SMState) : RegPres st st :=
  ⟨rfl, fun _ => ⟨rfl, rfl⟩, fun _ _ h => h⟩

theorem RegPres_trans {st1 st2 st3 : SMState}
    (h1 : RegPres st1 st2) (h2 : RegPres st2 st3) : RegPres st1 st3 :=
  ⟨h2.1.trans h1.1,
   fun j => ⟨(h2.2.1 j).1.trans (h1.2.1 j).1, (h2.2.1 j).2.trans (h1.2.1 j).2⟩,
   fun n j h => h2.2.2 n j (h1.2.2 n j h)⟩

/-- The conjunction of invariants registration maintains. -/
def INVn (st : SMState) : Prop := WFReg st ∧ AllNamed st ∧ ArenaClosed st

theorem INVn_of_RegPres {st st' : SMState} (hp : RegPres st st')
    (hinv : INVn st)
    (hreg' : ∀ n j, lookupA st'.registry n = some j →
      lookupA st.registry n = some j ∨ (j < st.arena.length ∧ (getNode st' j).name = some n)) :
    INVn st' := by
  obtain ⟨hWF, hAN, hAC⟩ := hinv
  refine ⟨?_, ?_, ?_⟩
  · intro n j hl
    rcases hreg' n j hl with hold | ⟨hlt, hname⟩
    · obtain ⟨hlt, hname⟩ := hWF n j hold
      exact ⟨by rw [hp.1]; exact hlt, by rw [(hp.2.1 j).1]; exact hname⟩
    · exact ⟨by rw [hp.1]; exact hlt, hname⟩
  · intro j hj
    rw [(hp.2.1 j).1]
    exact hAN j (by rw [← hp.1]; exact hj)
  · intro j hj m hm
    rw [hp.1]
    have hst : typeEntries (getNode st' j) = typeEntries (getNode st j) := by
      unfold typeEntries
      rw [(hp.2.1 j).2]
    rw [hst] at hm
    exact hAC j (by rw [← hp.1]; exact hj) m hm

theorem generateSchemaName_keeps (st : SMState) (n0 : String) (hint : Option String)
    (tol : Bool) (hne : n0 ≠ "") (hl : lookupA st.registry n0 = none) :
    generateSchemaName st (some n0) hint tol = (.ok n0, st) := by
  unfold generateSchemaName
  simp [optTruthy, hne, hl]

/-- The child walk of `_registerSchema` preserves every registered schema's
identity, name, fields, and registry binding, provided each recursive
registration does. -/
theorem regFields_pres (recReg : SMState → Nat → Except VError Nat × SMState)
    (hrec : ∀ (st : SMState) (j : Nat), INVn st → j < st.arena.length →
      RegPres st (recReg st j).2 ∧ INVn (recReg st j).2) :
    ∀ (entries : List SType) (st : SMState) (i : Nat), INVn st →
    (∀ m, SType.node m ∈ entries → m < st.arena.length) →
    RegPres st (regFields recReg i st entries).2 ∧ INVn (regFields recReg i st entries).2 := by
  intro entries
  induction entries with
  | nil => intro st i hinv _; exact ⟨RegPres_refl st, hinv⟩
  | cons t rest ih =>
    intro st i hinv hclosed
    cases t with
    | node j =>
      have hjr : j < st.arena.length := hclosed j (by simp)
      obtain ⟨hp, hinv'⟩ := hrec st j hinv hjr
      unfold regFields
      dsimp only
      rcases hpr : recReg st j with ⟨r, st'⟩
      rw [hpr] at hp hinv'
      cases r with
      | error e => exact ⟨hp, hinv'⟩
      | ok v =>
        dsimp only
        have hclosed' : ∀ m, SType.node m ∈ rest → m < st'.arena.length := by
          intro m hm
          rw [hp.1]
          exact hclosed m (List.mem_cons_of_mem _ hm)
        obtain ⟨hp2, hinv2⟩ := ih st' i hinv' hclosed'
        exact ⟨RegPres_trans hp hp2, hinv2⟩
    | strRef c =>
      unfold regFields
      dsimp only
      by_cases hc : st.customTypes.contains c
      · rw [if_pos hc]
        exact ih st i hinv (fun m hm => hclosed m (List.mem_cons_of_mem _ hm))
      · rw [if_neg hc]
        have hp : RegPres st (setNode st i (fun o => { o with resolvedFlag := some false })) := by
          refine ⟨by simp [setNode], ?_, ?_⟩
          · exact getNode_setNode_pointwise st i _ ⟨rfl, rfl⟩
          · intro n j h
            exact h
        have hinv' : INVn (setNode st i (fun o => { o with resolvedFlag := some false })) :=
          INVn_of_RegPres hp hinv (fun n j h => Or.inl h)
        have hclosed' : ∀ m, SType.node m ∈ rest →
            m < (setNode st i (fun o => { o with resolvedFlag := some false })).arena.length := by
          intro m hm
          rw [hp.1]
          exact hclosed m (List.mem_cons_of_mem _ hm)
        obtain ⟨hp2, hinv2⟩ := ih _ i hinv' hclosed'
        exact ⟨RegPres_trans hp hp2, hinv2⟩
    | func f =>
      unfold regFields
      exact ih st i hinv (fun m hm => hclosed m (List.mem_cons_of_mem _ hm))

/-- `_registerSchema` on an all-named arena preserves every registered
schema's identity, name, fields, and registry binding, and maintains the
invariants. -/
theorem registerGo_pres : ∀ (fuel : Nat) (st : SMState) (i : Nat)
    (hint : Option String) (tol : Bool),
    INVn st → i < st.arena.length →
    (tol = true ∨ nameRegistered st (getNode st i).name = false) →
    RegPres st (registerGo fuel st i hint tol).2 ∧ INVn (registerGo fuel st i hint tol).2 := by
  intro fuel
  induction fuel with
  | zero => intro st i hint tol hinv _ _; exact ⟨RegPres_refl st, hinv⟩
  | succ fuel ih =>
    intro st i hint tol hinv hrange hpre
    unfold registerGo
    dsimp only
    by_cases hearly : (tol && nameRegistered st (getNode st i).name) = true
    · rw [if_pos hearly]
      split
      · split
        · exact ⟨RegPres_refl st, hinv⟩
        · exact ⟨RegPres_refl st, hinv⟩
      · exact ⟨RegPres_refl st, hinv⟩
    · rw [if_neg hearly]
      have hnreg : nameRegistered st (getNode st i).name = false := by
        cases htol : tol with
        | true =>
          rw [htol] at hearly
          simpa using hearly
        | false =>
          rcases hpre with hpre | hpre
          · rw [htol] at hpre; cases hpre
          · exact hpre
      have hAN := hinv.2.1 i hrange
      obtain ⟨n0, hn0, hne0⟩ : ∃ n0, (getNode st i).name = some n0 ∧ n0 ≠ "" := by
        cases h : (getNode st i).name with
        | none => rw [h] at hAN; simp [optTruthy] at hAN
        | some n0 =>
          rw [h] at hAN
          exact ⟨n0, rfl, by simpa [optTruthy] using hAN⟩
      have hlook : lookupA st.registry n0 = none := by
        unfold nameRegistered at hnreg
        rw [hn0] at hnreg
        dsimp only at hnreg
        exact Option.not_isSome_iff_eq_none.mp (by simp [hnreg])
      rw [hn0, generateSchemaName_keeps st n0 hint tol hne0 hlook]
      dsimp only
      -- the name self-assignment and the registry insertion
      have hname2 : (getNode (setNode st i (fun o => { o with name := some n0 })) i).name
          = some n0 := by
        rw [getNode_setNode_self st i _ hrange]
      have hp2 : RegPres st (setNode st i (fun o => { o with name := some n0 })) := by
        refine ⟨by simp [setNode], ?_, fun n j h => h⟩
        exact getNode_setNode_pointwise st i _ ⟨by rw [hn0], rfl⟩
      have hp3 : RegPres (setNode st i (fun o => { o with name := some n0 }))
          { setNode st i (fun o => { o with name := some n0 }) with
            registry := assocSet (setNode st i (fun o => { o with name := some n0 })).registry n0 i } := by
        refine ⟨rfl, fun j => ⟨rfl, rfl⟩, ?_⟩
        intro n j h
        have hn : n ≠ n0 := by
          intro he
          rw [he] at h
          rw [show (setNode st i (fun o => { o with name := some n0 })).registry = st.registry
            from rfl, hlook] at h
          cases h
        simpa [lookupA_assocSet_ne _ n0 i n hn] using h
      have hp23 := RegPres_trans hp2 hp3
      have hinv3 : INVn { setNode st i (fun o => { o with name := some n0 }) with
          registry := assocSet (setNode st i (fun o => { o with name := some n0 })).registry n0 i } := by
        apply INVn_of_RegPres hp23 hinv
        intro n j h
        by_cases hn : n = n0
        · right
          rw [hn, lookupA_assocSet_self _ n0 i] at h
          cases h
          exact ⟨hrange, by rw [hn]; exact hname2⟩
        · left
          simpa [lookupA_assocSet_ne _ n0 i n hn] using h
      have hclosed : ∀ m, SType.node m ∈ typeEntries (getNode st i) →
          m < ({ setNode st i (fun o => { o with name := some n0 }) with
            registry := assocSet (setNode st i (fun o => { o with name := some n0 })).registry n0 i }).arena.length := by
        intro m hm
        rw [hp23.1]
        exact hinv.2.2 i hrange m hm
      have hrec : ∀ (st' : SMState) (j : Nat), INVn st' → j < st'.arena.length →
          RegPres st' (registerGo fuel st' j none true).2 ∧ INVn (registerGo fuel st' j none true).2 :=
        fun st' j hinv' hr' => ih st' j none true hinv' hr' (Or.inl rfl)
      obtain ⟨hp4, hinv4⟩ := regFields_pres _ hrec (typeEntries (getNode st i)) _ i hinv3 hclosed
      rcases hfr : regFields (fun st' j => registerGo fuel st' j none true) i
        { setNode st i (fun o => { o with name := some n0 }) with
          registry := assocSet (setNode st i (fun o => { o with name := some n0 })).registry n0 i }
        (typeEntries (getNode st i)) with ⟨r, st4⟩
      rw [hfr] at hp4 hinv4
      cases r with
      | error e => exact ⟨RegPres_trans hp23 hp4, hinv4⟩
      | ok v => exact ⟨RegPres_trans hp23 hp4, hinv4⟩

theorem registerSchema_pres (st : SMState) (i : Nat) (hint : Option String) (tol : Bool)
    (hinv : INVn st) (hrange : i < st.arena.length) :
    RegPres st (registerSchema st i hint tol).2 ∧ INVn (registerSchema st i hint tol).2 := by
  unfold registerSchema
  dsimp only
  by_cases hc : (nameRegistered st (getNode st i).name && !tol) = true
  · rw [if_pos hc]
    exact ⟨RegPres_refl st, hinv⟩
  · rw [if_neg hc]
    apply registerGo_pres _ st i hint tol hinv hrange
    cases htol : tol with
    | true => exact Or.inl rfl
    | false =>
      right
      rw [htol] at hc
      simpa using hc

/-- `getNode` at an in-range index is a member of the arena. -/
theorem getNode_mem (st : SMState) (j : Nat) (hj : j < st.arena.length) :
    getNode st j ∈ st.arena := by
  unfold getNode
  rw [List.getD_eq_getElem?_getD, List.getElem?_eq_getElem hj]
  exact List.getElem_mem hj

/-- Decidable sufficient condition for `AllNamed`. -/
theorem AllNamed_of_all (st : SMState)
    (h : st.arena.all (fun s => optTruthy s.name) = true) : AllNamed st :=
  fun j hj => List.all_eq_true.mp h _ (getNode_mem st j hj)

/-- Decidable sufficient condition for `ArenaClosed`. -/
theorem ArenaClosed_of_all (st : SMState)
    (h : st.arena.all (fun s => (typeEntries s).all (fun t =>
      match t with
      | .node m => decide (m < st.arena.length)
      | _ => true)) = true) : ArenaClosed st := by
  intro j hj m hm
  have h1 := List.all_eq_true.mp h _ (getNode_mem st j hj)
  have h2 := List.all_eq_true.mp h1 _ hm
  simpa using h2

/-- A schema created without a name: registration will generate one. -/
def nodeAnon : SchemaObject := { stype := .fieldMap [("a", .func "Number")] }

/-- A manager holding the anonymous schema, unregistered. -/
def stAnon : SMState := { initState testStream with arena := [nodeAnon] }

/-- Claim C8 counterexample: registration itself mutates schema objects in
place, in two ways the claim excludes.  Registering a nameless schema
overwrites its `name` with a generated one, and registering a schema whose
field holds a dangling by-name reference sets its `_resolved` flag to
`false` — both mutations are performed by `_registerSchema`, not by the
Resolver. -/
theorem registration_mutates_in_place_counterexample :
    ((getNode stAnon 0).name = none ∧
      (getNode (registerSchema stAnon 0 none false).2 0).name = some "gen@0") ∧
    ((getNode stCycle 0).resolvedFlag = none ∧
      (getNode stCycle1 0).resolvedFlag = some false) := by
  refine ⟨⟨?_, ?_⟩, ?_, ?_⟩ <;> decide

/-- Claim C8 as amended: over a manager whose schema objects all carry
explicit names and in-range nested links, no operation — registration,
custom-type registration, or resolution — ever removes or rebinds a
registered schema's registry entry, changes its name, or changes its
fields, except that the Resolver may replace a `Reference` string field
with a `Nested` link to the schema registered under that name (the
`_resolved` flag, which registration may also lower, is outside this frame;
for a nameless schema, registration additionally assigns the generated name
at registration time, as the counterexample shows). -/
theorem registered_schema_only_resolver_rewrites (st : SMState) (op : Op)
    (n : String) (i : Nat)
    (hWF : WFReg st) (hAN : AllNamed st) (hAC : ArenaClosed st)
    (hop : opInRange st op)
    (hreg : lookupA st.registry n = some i) :
    lookupA (applyOp st op).registry n = some i ∧
    (getNode (applyOp st op) i).name = (getNode st i).name ∧
    fieldsEvolve (applyOp st op).registry (getNode st i).stype
      (getNode (applyOp st op) i).stype := by
  cases op with
  | reg i0 hint tol =>
    have h := registerSchema_pres st i0 hint tol ⟨hWF, hAN, hAC⟩ hop
    refine ⟨h.1.2.2 n i hreg, (h.1.2.1 i).1, ?_⟩
    show fieldsEvolve _ _ (getNode (registerSchema st i0 hint tol).2 i).stype
    rw [(h.1.2.1 i).2]
    exact fieldsEvolve_refl _ _
  | regType t v =>
    have hreg' : (registerTypeOp st t v).2.registry = st.registry := by
      unfold registerTypeOp
      dsimp only
      split <;> rfl
    have harena : (registerTypeOp st t v).2.arena = st.arena := by
      unfold registerTypeOp
      dsimp only
      split <;> rfl
    have hnode : ∀ j, getNode (registerTypeOp st t v).2 j = getNode st j := by
      intro j
      unfold getNode
      rw [harena]
    refine ⟨?_, ?_, ?_⟩
    · show lookupA (registerTypeOp st t v).2.registry n = some i
      rw [hreg']
      exact hreg
    · show (getNode (registerTypeOp st t v).2 i).name = _
      rw [hnode]
    · show fieldsEvolve (registerTypeOp st t v).2.registry _
        (getNode (registerTypeOp st t v).2 i).stype
      rw [hnode]
      exact fieldsEvolve_refl _ _
  | resolveOne j =>
    refine ⟨?_, ?_, ?_⟩
    · show lookupA (resolveSchemaFn st j).2.registry n = some i
      rw [resolveSchemaFn_registry]
      exact hreg
    · by_cases hij : i = j
      · subst hij
        exact resolveSchemaFn_name st i
      · show (getNode (resolveSchemaFn st j).2 i).name = _
        rw [resolveSchemaFn_other st j i hij]
    · show fieldsEvolve (resolveSchemaFn st j).2.registry _
        (getNode (resolveSchemaFn st j).2 i).stype
      rw [resolveSchemaFn_registry]
      by_cases hij : i = j
      · subst hij
        exact resolveSchemaFn_evolves st i
      · rw [resolveSchemaFn_other st j i hij]
        exact fieldsEvolve_refl _ _
  | resolveEvery =>
    have h2 : (resolveAll st).2 = (resolveAllGo st (st.registry.map Prod.fst) []).1 := by
      unfold resolveAll
      dsimp only
      split <;> rfl
    have he := resolveAllGo_evolves (st.registry.map Prod.fst) st [] i
    have hr := resolveAllGo_registry (st.registry.map Prod.fst) st []
    refine ⟨?_, ?_, ?_⟩
    · show lookupA (resolveAll st).2.registry n = some i
      rw [h2, hr]
      exact hreg
    · show (getNode (resolveAll st).2 i).name = _
      rw [h2]
      exact he.1
    · show fieldsEvolve (resolveAll st).2.registry _ (getNode (resolveAll st).2 i).stype
      rw [h2, hr]
      exact he.2

/-- Witness for the amended C8 theorem: running `resolveAll` on the cycle
fixture keeps `a` bound to the same object with the same name. -/
theorem registered_schema_only_resolver_rewrites_witness :
    lookupA (applyOp stCycle2 .resolveEvery).registry "a" = some 0 ∧
    (getNode (applyOp stCycle2 .resolveEvery) 0).name = (getNode stCycle2 0).name := by
  have h := registered_schema_only_resolver_rewrites stCycle2 .resolveEvery "a" 0
    (WFReg_of_entries stCycle2 (by decide))
    (AllNamed_of_all stCycle2 (by decide))
    (ArenaClosed_of_all stCycle2 (by decide))
    trivial (by decide)
  exact ⟨h.1, h.2.1⟩

end Schema
